import Mathlib

/-! Box Backup: rolling checksum, reference count database and string splitting.

A shallow embedding of `lib/crypto/RollingChecksum.cpp`,
`lib/backupstore/BackupStoreRefCountDatabase.cpp` and the function
`SplitString` of `lib/common/Utils.cpp`, followed by theorems about the
embedded functions.

Conventions of the embedding.

* Machine integers are natural numbers or integers with the reduction written
  out: `uint16_t` is reduced modulo `2^16`, `uint32_t` and `unsigned int`
  modulo `2^32`, `size_t` modulo `2^64` (the LP64 data model); object IDs and
  file offsets are signed 64-bit integers and wrap around in two's complement.
* A byte is a `Fin 256`.  A `const uint8_t *` is the list of the bytes that can
  be read from it; `p[i]` is `p.getD i 0`, and `p + n` is `p.drop n`.  A
  `std::string` is the list of its characters, each one byte.
* A loop whose counter can wrap around takes a fuel argument and returns
  `none` when the fuel runs out.
* The refcount database functions pass the database handle explicitly and
  return the handle left behind together with either the value or the
  exception thrown.
-/

set_option autoImplicit false

/-- One octet, the `uint8_t` of the sources. -/
abbrev Byte := Fin 256

/-! ## RollingChecksum.cpp -/

/-- The two `uint16_t` members `a` and `b` of class `RollingChecksum`. -/
structure RollingChecksum where
  a : Nat
  b : Nat
  deriving DecidableEq, Repr

namespace RollingChecksum

/-- The loop of the constructor, lines 28 to 34: `x` counts down from `Length`
to `1` while `block` advances by one byte each round. -/
def ctorLoop : Nat → List Byte → RollingChecksum → RollingChecksum
  | 0, _, s => s
  | x + 1, block, s =>
    let v := (block.getD 0 0).val
    ctorLoop x (block.drop 1)
      { a := (s.a + v) % 2 ^ 16
        b := (s.b + ((x + 1) * v) % 2 ^ 64) % 2 ^ 64 % 2 ^ 16 }

/-- Constructor `RollingChecksum::RollingChecksum(data, Length)`. -/
def new (data : List Byte) (Length : Nat) : RollingChecksum :=
  ctorLoop Length data { a := 0, b := 0 }

/-- The `for` loop of `RollForwardSeveral`, lines 52 to 59.  The counter `i` is
an `unsigned int`, so `i++` is taken modulo `2^32`; `Skip` is a `size_t`.  The
state is the counter, `sumBegin` and the two accumulators.  `none` means the
fuel was used up before the loop condition became false. -/
def rollLoop (StartOfThisBlock LastOfNextBlock : List Byte) (Skip : Nat) :
    Nat → Nat → Nat → RollingChecksum → Option (Nat × RollingChecksum)
  | 0, _, _, _ => none
  | fuel + 1, i, sumBegin, s =>
    if i < Skip then
      let j : Nat := (StartOfThisBlock.getD i 0).val
      let k : Nat := (LastOfNextBlock.getD i 0).val
      let sumBegin1 := (sumBegin + j) % 2 ^ 16
      let a1 := (((s.a : Int) + ((k : Int) - (j : Int))) % 2 ^ 16).toNat
      let b1 := (s.b + a1) % 2 ^ 16
      rollLoop StartOfThisBlock LastOfNextBlock Skip fuel ((i + 1) % 2 ^ 32) sumBegin1
        { a := a1, b := b1 }
    else
      some (sumBegin, s)

/-- The method `RollingChecksum::RollForwardSeveral`, run with the given fuel. -/
def RollForwardSeveral (fuel : Nat) (s : RollingChecksum)
    (StartOfThisBlock LastOfNextBlock : List Byte) (Length Skip : Nat) :
    Option RollingChecksum :=
  match rollLoop StartOfThisBlock LastOfNextBlock Skip fuel 0 0 s with
  | none => none
  | some (sumBegin, s1) =>
    some { a := s1.a
           b := ((((s1.b : Int) - ((Length * sumBegin % 2 ^ 64 : Nat) : Int)) % 2 ^ 64)
                  % 2 ^ 16).toNat }

end RollingChecksum

/-! ## BackupStoreRefCountDatabase.cpp -/

namespace BackupStoreRefCountDatabase

/-- The exceptions the functions below end in. -/
inductive Exception where
  | CannotOverwriteExistingFile
  | CouldNotLoadStoreInfo
  | BadStoreInfoOnLoad
  | UnknownObjectRefCountRequested
  | OSFileError
  | AssertFailed
  deriving DecidableEq, Repr

deriving instance DecidableEq for Except

/-- The constant `REFCOUNT_MAGIC_VALUE`, line 25. -/
def REFCOUNT_MAGIC_VALUE : Nat := 0x52656643

/-- Modelled from the spec: `sizeof(refcount_StreamFormat)`, the size of the
header declared in the class header file; the layout table gives the magic
constant 4 bytes at offset 0 and the account ID 4 bytes at offset 4. -/
def HeaderSize : Nat := 8

/-- Modelled from the spec: `sizeof(refcount_t)`; a slot is 4 bytes, an
unsigned 32-bit count. -/
def SlotSize : Nat := 4

/-- The four bytes that `htonl(v)` leaves in memory: `v` as `uint32_t`, most
significant byte first. -/
def htonl (v : Nat) : List Byte :=
  [ ⟨v / 2 ^ 24 % 256, Nat.mod_lt _ (by decide)⟩,
    ⟨v / 2 ^ 16 % 256, Nat.mod_lt _ (by decide)⟩,
    ⟨v / 2 ^ 8 % 256, Nat.mod_lt _ (by decide)⟩,
    ⟨v % 256, Nat.mod_lt _ (by decide)⟩ ]

/-- The value `ntohl` gives for four bytes of memory read from the file. -/
def ntohl : List Byte → Nat
  | [b0, b1, b2, b3] => b0.val * 2 ^ 24 + b1.val * 2 ^ 16 + b2.val * 2 ^ 8 + b3.val
  | _ => 0

/-- Conversion of an `int32_t` to `uint32_t`. -/
def toUInt32 (x : Int) : Nat := (x % 2 ^ 32).toNat

/-- Conversion of a `uint32_t` to `int32_t`, the cast `(int32_t)` of line 144. -/
def toInt32 (v : Nat) : Int :=
  if v % 2 ^ 32 < 2 ^ 31 then (v % 2 ^ 32 : Nat) else (v % 2 ^ 32 : Nat) - 2 ^ 32

/-- Modelled from the spec: the open `FileStream`, which is not part of the
sources at hand.  It is an ordinary seekable byte stream: the bytes of the
file, the current position, and whether it was opened with `O_RDONLY`. -/
structure FileStream where
  bytes : List Byte
  pos : Nat
  readOnly : Bool
  deriving DecidableEq, Repr

/-- Modelled from the spec: what a write of `data` at offset `pos` leaves in the
file.  Bytes between the previous end of file and `pos` that are never written
read back as zero (sparse extension). -/
def writeAt (bytes : List Byte) (pos : Nat) (data : List Byte) : List Byte :=
  let padded := bytes ++ List.replicate (pos - bytes.length) (0 : Byte)
  padded.take pos ++ data ++ padded.drop (pos + data.length)

/-- Modelled from the spec: `FileStream::Seek(offset, SEEK_SET)`.  A negative
offset is refused by the operating system. -/
def FileStream.Seek (f : FileStream) (offset : Int) : Except Exception FileStream :=
  if offset < 0 then .error .OSFileError
  else .ok { f with pos := offset.toNat }

/-- Modelled from the spec: `FileStream::Read(buffer, n)`; returns the bytes
read, at most `n` and fewer only at the end of the file. -/
def FileStream.Read (f : FileStream) (n : Nat) : List Byte × FileStream :=
  let got := (f.bytes.drop f.pos).take n
  (got, { f with pos := f.pos + got.length })

/-- Modelled from the spec: `FileStream::Write(buffer, n)`; fails on a stream
opened read-only. -/
def FileStream.Write (f : FileStream) (data : List Byte) : Except Exception FileStream :=
  if f.readOnly then .error .OSFileError
  else .ok { f with bytes := writeAt f.bytes f.pos data, pos := f.pos + data.length }

end BackupStoreRefCountDatabase

/-- An object of class `BackupStoreRefCountDatabase`: the account it was
loaded for (its ID), the read-only mark and the open database file. -/
structure BackupStoreRefCountDatabase where
  mAccountID : Int
  mReadOnly : Bool
  mapDatabaseFile : BackupStoreRefCountDatabase.FileStream
  deriving DecidableEq, Repr

namespace BackupStoreRefCountDatabase

/-- Modelled from the spec: the `ASSERT` macro of `Box.h`, which is not part of
the sources at hand.  A failed assertion is a fatal programming-error
assertion; it ends the call with `AssertFailed`. -/
def ASSERT (cond : Bool) : Except Exception Unit :=
  if cond then .ok () else .error .AssertFailed

/-- Modelled from the spec: `GetSize()`, declared in the class header file:
the current size of the file. -/
def GetSize (db : BackupStoreRefCountDatabase) : Int :=
  (db.mapDatabaseFile.bytes.length : Int)

/-- Modelled from the spec: `GetEntrySize()`, declared in the class header
file: the size of one slot. -/
def GetEntrySize : Int := (SlotSize : Int)

/-- The value that a signed 64-bit variable (`int64_t`, `IOStream::pos_type`)
holds for the integer `x`: two's-complement wrap-around. -/
def toInt64 (x : Int) : Int := (x + 2 ^ 63) % 2 ^ 64 - 2 ^ 63

/-- Modelled from the spec: `GetOffset(ObjectID)`, declared in the class header
file.  Slot `1 + k` lies at offset `8 + 4k`.  `ObjectID` is an `int64_t` and
the offset an `IOStream::pos_type`, so the arithmetic is that of signed 64-bit
integers. -/
def GetOffset (ObjectID : Int) : Int :=
  toInt64 ((ObjectID - 1) * GetEntrySize + (HeaderSize : Int))

/-- The static method `Create`, lines 80 to 109.  The file of the account is
`none` when it does not exist.  The file is opened with `O_CREAT | O_RDWR`
(and `O_EXCL` unless overwriting is allowed) and the header is written at
offset 0. -/
def Create (accountID : Int) (AllowOverwrite : Bool) (file : Option (List Byte)) :
    Except Exception Unit × Option (List Byte) :=
  let hdr := htonl REFCOUNT_MAGIC_VALUE ++ htonl (toUInt32 accountID)
  if file.isSome && !AllowOverwrite then
    (.error .CannotOverwriteExistingFile, file)
  else
    let DatabaseFile : FileStream := { bytes := file.getD [], pos := 0, readOnly := false }
    match DatabaseFile.Write hdr with
    | .error e => (.error e, some DatabaseFile.bytes)
    | .ok f => (.ok (), some f.bytes)

/-- The static method `Load`, lines 122 to 160. -/
def Load (accountID : Int) (ReadOnly : Bool) (file : Option (List Byte)) :
    Except Exception BackupStoreRefCountDatabase :=
  match file with
  | none => .error .OSFileError
  | some bytes =>
    let dbfile : FileStream := { bytes := bytes, pos := 0, readOnly := ReadOnly }
    let (hdr, dbfile1) := dbfile.Read HeaderSize
    if hdr.length ≠ HeaderSize then
      .error .CouldNotLoadStoreInfo
    else if ntohl (hdr.take 4) ≠ REFCOUNT_MAGIC_VALUE ∨
        toInt32 (ntohl (hdr.drop 4)) ≠ accountID then
      .error .BadStoreInfoOnLoad
    else
      .ok { mAccountID := accountID, mReadOnly := ReadOnly, mapDatabaseFile := dbfile1 }

/-- The method `GetRefCount`, lines 172 to 197.  The sum `offset +
GetEntrySize()` of line 177 is taken in `IOStream::pos_type`. -/
def GetRefCount (db : BackupStoreRefCountDatabase) (ObjectID : Int) :
    Except Exception Nat × BackupStoreRefCountDatabase :=
  let offset := GetOffset ObjectID
  if GetSize db < toInt64 (offset + GetEntrySize) then
    (.error .UnknownObjectRefCountRequested, db)
  else
    match db.mapDatabaseFile.Seek offset with
    | .error e => (.error e, db)
    | .ok f1 =>
      let (refcount, f2) := f1.Read SlotSize
      if refcount.length ≠ SlotSize then
        (.error .CouldNotLoadStoreInfo, { db with mapDatabaseFile := f2 })
      else
        (.ok (ntohl refcount), { db with mapDatabaseFile := f2 })

/-- The value of a signed 64-bit integer converted to `size_t`: a negative
value wraps around. -/
def toSizeT (x : Int) : Int := if x < 0 then x + 2 ^ 64 else x

/-- The method `GetLastObjectIDUsed`, lines 199 to 203.  `GetSize()` is signed
and `sizeof` is a `size_t`, so the subtraction and the division are carried
out in `size_t`. -/
def GetLastObjectIDUsed (db : BackupStoreRefCountDatabase) : Int :=
  toSizeT (GetSize db - (HeaderSize : Int)) / (SlotSize : Int)

/-- The method `SetRefCount`, lines 225 to 232. -/
def SetRefCount (db : BackupStoreRefCountDatabase) (ObjectID : Int) (NewRefCount : Nat) :
    Except Exception Unit × BackupStoreRefCountDatabase :=
  let offset := GetOffset ObjectID
  match db.mapDatabaseFile.Seek offset with
  | .error e => (.error e, db)
  | .ok f1 =>
    let RefCountNetOrder := htonl NewRefCount
    match f1.Write RefCountNetOrder with
    | .error e => (.error e, { db with mapDatabaseFile := f1 })
    | .ok f2 => (.ok (), { db with mapDatabaseFile := f2 })

/-- The method `AddReference`, lines 205 to 223.  `refcount++` is taken in
`uint32_t`. -/
def AddReference (db : BackupStoreRefCountDatabase) (ObjectID : Int) :
    Except Exception Unit × BackupStoreRefCountDatabase :=
  if ObjectID > GetLastObjectIDUsed db then
    SetRefCount db ObjectID ((0 + 1) % 2 ^ 32)
  else
    match GetRefCount db ObjectID with
    | (.error e, db1) => (.error e, db1)
    | (.ok refcount, db1) => SetRefCount db1 ObjectID ((refcount + 1) % 2 ^ 32)

/-- The method `RemoveReference`, lines 234 to 241.  `refcount--` is taken in
`uint32_t`. -/
def RemoveReference (db : BackupStoreRefCountDatabase) (ObjectID : Int) :
    Except Exception Bool × BackupStoreRefCountDatabase :=
  match GetRefCount db ObjectID with
  | (.error e, db1) => (.error e, db1)
  | (.ok refcount, db1) =>
    match ASSERT (decide (refcount > 0)) with
    | .error e => (.error e, db1)
    | .ok () =>
      let refcount1 := (refcount + 2 ^ 32 - 1) % 2 ^ 32
      match SetRefCount db1 ObjectID refcount1 with
      | (.error e, db2) => (.error e, db2)
      | (.ok (), db2) => (.ok (decide (refcount1 > 0)), db2)

end BackupStoreRefCountDatabase

/-! ## Sequences of calls on one handle -/

namespace BackupStoreRefCountDatabase

/-- One call of a mutating method on a database handle. -/
inductive Call where
  | set (ObjectID : Int) (NewRefCount : Nat)
  | add (ObjectID : Int)
  | remove (ObjectID : Int)
  deriving DecidableEq, Repr

/-- The object ID a call is made for. -/
def Call.target : Call → Int
  | .set ObjectID _ => ObjectID
  | .add ObjectID => ObjectID
  | .remove ObjectID => ObjectID

/-- The handle left behind by one call, whether the call returned or threw. -/
def Call.run (db : BackupStoreRefCountDatabase) : Call → BackupStoreRefCountDatabase
  | .set ObjectID NewRefCount => (SetRefCount db ObjectID NewRefCount).2
  | .add ObjectID => (AddReference db ObjectID).2
  | .remove ObjectID => (RemoveReference db ObjectID).2

/-- The handle left behind by a finite sequence of calls, made in order. -/
def runCalls (db : BackupStoreRefCountDatabase) (calls : List Call) :
    BackupStoreRefCountDatabase :=
  calls.foldl Call.run db

/-- `AddReference(ObjectID)` called `n` times in a row; stops at the first call
that throws. -/
def AddReferenceTimes (db : BackupStoreRefCountDatabase) (ObjectID : Int) :
    Nat → Except Exception Unit × BackupStoreRefCountDatabase
  | 0 => (.ok (), db)
  | n + 1 =>
    match AddReferenceTimes db ObjectID n with
    | (.error e, db1) => (.error e, db1)
    | (.ok (), db1) => AddReference db1 ObjectID

/-- `RemoveReference(ObjectID)` called `k` times in a row; returns the values
returned by the calls, in order, and stops at the first call that throws. -/
def RemoveReferenceTimes (db : BackupStoreRefCountDatabase) (ObjectID : Int) :
    Nat → Except Exception (List Bool) × BackupStoreRefCountDatabase
  | 0 => (.ok [], db)
  | k + 1 =>
    match RemoveReferenceTimes db ObjectID k with
    | (.error e, db1) => (.error e, db1)
    | (.ok rs, db1) =>
      match RemoveReference db1 ObjectID with
      | (.error e, db2) => (.error e, db2)
      | (.ok r, db2) => (.ok (rs ++ [r]), db2)

end BackupStoreRefCountDatabase

/-! ## Utils.cpp -/

/-- The search of `find_first_of` through the characters `s`, the first of
which has index `i`: the index of the first character equal to `c`, or `none`
for `npos`. -/
def findFrom (c : Byte) : List Byte → Nat → Option Nat
  | [], _ => none
  | x :: xs, i => if x = c then some i else findFrom c xs (i + 1)

/-- The call `String.find_first_of(SplitOn, pos)` of `std::string`: the index
of the first character equal to `SplitOn` at or after `pos`, or `none` for
`npos`. -/
def find_first_of (String : List Byte) (SplitOn : Byte) (pos : Nat) : Option Nat :=
  findFrom SplitOn (String.drop pos) pos

/-- The call `String.substr(pos, len)` of `std::string`, for `pos` within the
string. -/
def substr (String : List Byte) (pos len : Nat) : List Byte :=
  (String.drop pos).take len

/-- The `while` loop of `SplitString`, lines 40 to 49.  The state is `b` and
the output vector; `len` is an `unsigned int`, so `e - b` is reduced modulo
`2^32`.  `none` means the fuel was used up before `find_first_of` returned
`npos`. -/
def splitLoop (String : List Byte) (SplitOn : Byte) :
    Nat → Nat → List (List Byte) → Option (Nat × List (List Byte))
  | 0, _, _ => none
  | fuel + 1, b, rOutput =>
    match find_first_of String SplitOn b with
    | none => some (b, rOutput)
    | some e =>
      let len := (e - b) % 2 ^ 32
      let rOutput1 := if len ≥ 1 then rOutput ++ [substr String b len] else rOutput
      splitLoop String SplitOn fuel (e + 1) rOutput1

/-- The function `SplitString`, lines 35 to 62, run with the given fuel; the
result is the output vector after the call. -/
def SplitString (fuel : Nat) (String : List Byte) (SplitOn : Byte)
    (rOutput : List (List Byte)) : Option (List (List Byte)) :=
  match splitLoop String SplitOn fuel 0 rOutput with
  | none => none
  | some (b, rOutput1) =>
    some (if b < String.length then rOutput1 ++ [String.drop b] else rOutput1)

/-- The maximal non-empty runs of characters of `String` different from
`SplitOn`, from left to right: `String` cut at every occurrence of `SplitOn`,
without the empty pieces. -/
def maximalRuns (SplitOn : Byte) (String : List Byte) : List (List Byte) :=
  (String.splitOn SplitOn).filter (fun p => !p.isEmpty)

/-! ## The frame of a call -/

namespace BackupStoreRefCountDatabase

/-- The frame of a call made for `ObjectID` on the handle `db` that leaves the
handle `db1`: the 8 header bytes are those of `db`, and every other slot of the
table of `db` reads as it did before the call. -/
def OtherSlotsKept (db db1 : BackupStoreRefCountDatabase) (ObjectID : Int) : Prop :=
  db1.mapDatabaseFile.bytes.take HeaderSize = db.mapDatabaseFile.bytes.take HeaderSize ∧
  ∀ j : Int, 1 ≤ j → j ≤ GetLastObjectIDUsed db → j ≠ ObjectID →
    (GetRefCount db1 j).1 = (GetRefCount db j).1

end BackupStoreRefCountDatabase

/-! ## Exact sums used to state the checksum theorems -/

namespace RollingChecksum

/-- Exact sum of the `Length` bytes of the window that starts `t` bytes into `D`. -/
def windowSum (D : List Byte) (Length t : Nat) : Nat :=
  ∑ m in Finset.range Length, (D.getD (t + m) 0).val

/-- Exact weighted sum of the window: the first byte has weight `Length`, the
last byte weight 1. -/
def windowWeighted (D : List Byte) (Length t : Nat) : Nat :=
  ∑ m in Finset.range Length, (D.getD (t + m) 0).val * (Length - m)

/-- Exact sum of the first `i` bytes of `D`. -/
def prefixSum (D : List Byte) (i : Nat) : Nat :=
  ∑ m in Finset.range i, (D.getD m 0).val

end RollingChecksum

/-! ## Theorems: RollingChecksum -/

namespace RollingChecksum

theorem getD_drop_one (block : List Byte) (m : Nat) :
    (block.drop 1).getD m 0 = block.getD (m + 1) 0 := by
  simp [List.getD_eq_getElem?_getD, List.getElem?_drop, Nat.add_comm]

theorem getD_drop (D : List Byte) (t m : Nat) :
    (D.drop t).getD m 0 = D.getD (t + m) 0 := by
  simp [List.getD_eq_getElem?_getD, List.getElem?_drop]


/-- The constructor loop adds the exact sums of the next `x` bytes to the
accumulators, modulo `2^16`. -/
theorem ctorLoop_eq (x : Nat) : ∀ (block : List Byte) (s : RollingChecksum),
    s.a < 2 ^ 16 → s.b < 2 ^ 16 →
    ctorLoop x block s =
      { a := (s.a + ∑ m in Finset.range x, (block.getD m 0).val) % 2 ^ 16
        b := (s.b + ∑ m in Finset.range x, (block.getD m 0).val * (x - m)) % 2 ^ 16 } := by
  induction x with
  | zero =>
    intro block s ha hb
    cases s with
    | mk a b =>
      simp only [ctorLoop, Finset.range_zero, Finset.sum_empty, Nat.add_zero]
      simp only at ha hb
      rw [Nat.mod_eq_of_lt ha, Nat.mod_eq_of_lt hb]
  | succ x ih =>
    intro block s _ _
    rw [ctorLoop, ih _ _ (Nat.mod_lt _ (by decide)) (Nat.mod_lt _ (by decide))]
    simp only [getD_drop_one]
    rw [Finset.sum_range_succ' (fun m => (block.getD m 0).val),
      Finset.sum_range_succ' (fun m => (block.getD m 0).val * (x + 1 - m))]
    simp only [Nat.add_sub_add_right, Nat.sub_zero]
    generalize (∑ m in Finset.range x, (block.getD (m + 1) 0).val) = S1
    generalize (∑ m in Finset.range x, (block.getD (m + 1) 0).val * (x - m)) = S2
    generalize (block.getD 0 0).val = v
    have h : (x + 1) * v = v * (x + 1) := Nat.mul_comm _ _
    rw [h]
    generalize v * (x + 1) = P
    congr 1 <;> omega

/-- The constructor run on the window at offset `t` gives the exact sums of
that window modulo `2^16`. -/
theorem new_eq (D : List Byte) (Length t : Nat) :
    new (D.drop t) Length =
      { a := windowSum D Length t % 2 ^ 16, b := windowWeighted D Length t % 2 ^ 16 } := by
  rw [new, ctorLoop_eq _ _ _ (by decide) (by decide)]
  simp only [getD_drop, windowSum, windowWeighted, Nat.zero_add]

/-- Sliding the window by one byte: the byte at `t` leaves the sum and the
byte at `t + Length` enters it. -/
theorem windowSum_succ (D : List Byte) (Length t : Nat) :
    windowSum D Length (t + 1) + (D.getD t 0).val =
      windowSum D Length t + (D.getD (t + Length) 0).val := by
  induction Length with
  | zero => simp [windowSum]
  | succ n ih =>
    simp only [windowSum, Finset.sum_range_succ] at ih ⊢
    have e : t + 1 + n = t + (n + 1) := by omega
    rw [e]
    omega


theorem sum_weight_succ (f : Nat → Nat) (n : Nat) :
    ∑ m in Finset.range n, f m * (n + 1 - m) =
      ∑ m in Finset.range n, f m * (n - m) + ∑ m in Finset.range n, f m := by
  rw [← Finset.sum_add_distrib]
  apply Finset.sum_congr rfl
  intro m hm
  have hlt : m < n := Finset.mem_range.1 hm
  have e : n + 1 - m = (n - m) + 1 := by omega
  rw [e, Nat.mul_add, Nat.mul_one]

/-- Sliding the window by one byte lowers every weight by one: the weighted
sum gains the new plain sum and loses `Length` times the byte that leaves. -/
theorem windowWeighted_succ (D : List Byte) (Length t : Nat) :
    windowWeighted D Length (t + 1) + Length * (D.getD t 0).val =
      windowWeighted D Length t + windowSum D Length (t + 1) := by
  cases Length with
  | zero => simp [windowWeighted, windowSum]
  | succ n =>
    have h1 : windowWeighted D (n + 1) t =
        ∑ m in Finset.range n, (D.getD (t + 1 + m) 0).val * (n - m)
          + (D.getD t 0).val * (n + 1) := by
      unfold windowWeighted
      rw [Finset.sum_range_succ']
      simp only [Nat.add_sub_add_right, Nat.sub_zero, Nat.add_zero]
      congr 1
      apply Finset.sum_congr rfl
      intro m _
      have e : t + (m + 1) = t + 1 + m := by omega
      rw [e]
    have h2 : windowWeighted D (n + 1) (t + 1) =
        ∑ m in Finset.range n, (D.getD (t + 1 + m) 0).val * (n - m)
          + ∑ m in Finset.range n, (D.getD (t + 1 + m) 0).val
          + (D.getD (t + 1 + n) 0).val := by
      unfold windowWeighted
      rw [Finset.sum_range_succ, sum_weight_succ (fun m => (D.getD (t + 1 + m) 0).val)]
      simp
    have h3 : windowSum D (n + 1) (t + 1) =
        ∑ m in Finset.range n, (D.getD (t + 1 + m) 0).val + (D.getD (t + 1 + n) 0).val := by
      unfold windowSum
      rw [Finset.sum_range_succ]
    rw [h1, h2, h3, Nat.mul_comm (n + 1)]
    omega


/-- Invariant of the loop of `RollForwardSeveral` when both pointers view one
buffer `D` and `Skip < 2^32`: after `i` rounds `sumBegin` is the sum of the
first `i` bytes, `a` is the sum of the window at offset `i`, and `b` is the
weighted sum of that window plus `Length` times `sumBegin`, all modulo `2^16`.
With more fuel than rounds left the loop ends at `i = Skip`. -/
theorem rollLoop_spec (D : List Byte) (Length Skip : Nat) (hSkip : Skip < 2 ^ 32) :
    ∀ (n fuel i sumBegin : Nat) (s : RollingChecksum),
      i + n = Skip → n < fuel →
      sumBegin = prefixSum D i % 2 ^ 16 →
      s.a = windowSum D Length i % 2 ^ 16 →
      s.b = (windowWeighted D Length i + Length * prefixSum D i) % 2 ^ 16 →
      rollLoop D (D.drop Length) Skip fuel i sumBegin s =
        some (prefixSum D Skip % 2 ^ 16,
          { a := windowSum D Length Skip % 2 ^ 16
            b := (windowWeighted D Length Skip + Length * prefixSum D Skip) % 2 ^ 16 }) := by
  intro n
  induction n with
  | zero =>
    intro fuel i sumBegin s hi hf hsb ha hb
    obtain ⟨f, rfl⟩ : ∃ f, fuel = f + 1 := ⟨fuel - 1, by omega⟩
    have hi2 : i = Skip := by omega
    subst hi2
    cases s with
    | mk a b =>
      simp only at ha hb
      rw [rollLoop, if_neg (Nat.lt_irrefl _), hsb, ha, hb]
  | succ n ih =>
    intro fuel i sumBegin s hi hf hsb ha hb
    obtain ⟨f, rfl⟩ : ∃ f, fuel = f + 1 := ⟨fuel - 1, by omega⟩
    have hlt : i < Skip := by omega
    have hwrap : (i + 1) % 2 ^ 32 = i + 1 := Nat.mod_eq_of_lt (by omega)
    rw [rollLoop, if_pos hlt]
    simp only [hwrap, getD_drop]
    have hW := windowSum_succ D Length i
    have hWW := windowWeighted_succ D Length i
    have hP : prefixSum D (i + 1) = prefixSum D i + (D.getD i 0).val := by
      unfold prefixSum
      rw [Finset.sum_range_succ]
    have hLP : Length * prefixSum D (i + 1) =
        Length * prefixSum D i + Length * (D.getD i 0).val := by
      rw [hP, Nat.mul_add]
    have hcomm : Length + i = i + Length := Nat.add_comm _ _
    rw [hcomm]
    apply ih
    · omega
    · omega
    · rw [hsb, hP]; omega
    · simp only; rw [ha]; omega
    · simp only; rw [hb, ha, hLP]
      generalize Length * prefixSum D i = P at *
      generalize Length * (D.getD i 0).val = Q at *
      omega

/-- Rolling equals recomputing: for every `Skip < 2^32` and enough fuel,
`RollForwardSeveral` started from the checksum of `D[0..Length)` returns the
checksum constructed over `D[Skip..Skip+Length)`. -/
theorem rollForwardSeveral_eq_new (D : List Byte) (Length Skip fuel : Nat)
    (hSkip : Skip < 2 ^ 32) (hfuel : Skip < fuel) :
    RollForwardSeveral fuel (new D Length) D (D.drop Length) Length Skip =
      some (new (D.drop Skip) Length) := by
  have h0 := new_eq D Length 0
  rw [List.drop_zero] at h0
  have hloop := rollLoop_spec D Length Skip hSkip Skip fuel 0 0 (new D Length)
    (by omega) hfuel (by simp [prefixSum]) (by rw [h0]) (by rw [h0]; simp [prefixSum])
  rw [RollForwardSeveral, hloop, new_eq D Length Skip]
  simp only [Option.some.injEq, RollingChecksum.mk.injEq, true_and]
  have hdiv : Length * prefixSum D Skip =
      2 ^ 16 * (Length * (prefixSum D Skip / 2 ^ 16)) + Length * (prefixSum D Skip % 2 ^ 16) := by
    conv_lhs => rw [← Nat.div_add_mod (prefixSum D Skip) (2 ^ 16)]
    rw [Nat.mul_add, Nat.mul_left_comm]
  rw [hdiv]
  generalize Length * (prefixSum D Skip / 2 ^ 16) = Y
  generalize Length * (prefixSum D Skip % 2 ^ 16) = X
  generalize windowWeighted D Length Skip = W
  omega

/-- The worked scenario of the checksum: data `[1,2,3,4,5,6,7]`, window length
3.  The first window gives `(6, 10)`; rolling by 1 gives `(9, 16)`, the checksum
of `[2,3,4]`; rolling by 2 gives `(12, 22)`, the checksum of `[3,4,5]`. -/
theorem rollForwardSeveral_worked_scenario :
    new [1, 2, 3, 4, 5, 6, 7] 3 = { a := 6, b := 10 } ∧
    RollForwardSeveral 2 (new [1, 2, 3, 4, 5, 6, 7] 3) [1, 2, 3, 4, 5, 6, 7]
      (List.drop 3 [1, 2, 3, 4, 5, 6, 7]) 3 1 = some { a := 9, b := 16 } ∧
    new [2, 3, 4] 3 = { a := 9, b := 16 } ∧
    RollForwardSeveral 3 (new [1, 2, 3, 4, 5, 6, 7] 3) [1, 2, 3, 4, 5, 6, 7]
      (List.drop 3 [1, 2, 3, 4, 5, 6, 7]) 3 2 = some { a := 12, b := 22 } ∧
    new [3, 4, 5] 3 = { a := 12, b := 22 } := by
  decide

/-- With `Skip ≥ 2^32` the loop condition `i < Skip` holds for every value the
`unsigned int` counter can take, so the loop uses up any amount of fuel. -/
theorem rollLoop_wraps (StartOfThisBlock LastOfNextBlock : List Byte) (Skip : Nat)
    (hSkip : 2 ^ 32 ≤ Skip) :
    ∀ (fuel i sumBegin : Nat) (s : RollingChecksum), i < 2 ^ 32 →
      rollLoop StartOfThisBlock LastOfNextBlock Skip fuel i sumBegin s = none := by
  intro fuel
  induction fuel with
  | zero => intro i sumBegin s _; rfl
  | succ f ih =>
    intro i sumBegin s hi
    rw [rollLoop, if_pos (by omega)]
    exact ih _ _ _ (Nat.mod_lt _ (by decide))

end RollingChecksum


/-- C1: on the LP64 data model the contract fails for a skip of `2^32`: with a
buffer of `2^33` bytes, window length `2^32` and skip `2^32` (so that
`1 ≤ skip ≤ length` and `length + skip ≤ |D|`) the loop counter, an
`unsigned int`, wraps to 0 before it reaches `Skip`, and `RollForwardSeveral`
produces no result whatever the fuel. -/
theorem C1_rollForwardSeveral_skip_2_32_no_result :
    1 ≤ 2 ^ 32 ∧ 2 ^ 32 ≤ 2 ^ 32 ∧
    2 ^ 32 + 2 ^ 32 ≤ (List.replicate (2 ^ 33) (0 : Byte)).length ∧
    ∀ fuel : Nat,
      RollingChecksum.RollForwardSeveral fuel
        (RollingChecksum.new (List.replicate (2 ^ 33) (0 : Byte)) (2 ^ 32))
        (List.replicate (2 ^ 33) (0 : Byte))
        ((List.replicate (2 ^ 33) (0 : Byte)).drop (2 ^ 32)) (2 ^ 32) (2 ^ 32) = none := by
  refine ⟨by decide, Nat.le_refl _, ?_, ?_⟩
  · rw [List.length_replicate]; decide
  · intro fuel
    rw [RollingChecksum.RollForwardSeveral,
      RollingChecksum.rollLoop_wraps _ _ _ (Nat.le_refl _) fuel 0 0 _ (by decide)]

/-- C2: for every byte sequence `W`, the constructor run over the whole of `W`
yields `a = (Σ W[i]) mod 65536` and `b = (Σ W[i] * (L - i)) mod 65536` with
`L = |W|`, the reduced values of the exact sums; `[1,2,3]` gives `(6, 10)`. -/
theorem C2_constructor_is_reduced_exact_sum (W : List Byte) :
    RollingChecksum.new W W.length =
      { a := (∑ i in Finset.range W.length, (W.getD i 0).val) % 65536
        b := (∑ i in Finset.range W.length, (W.getD i 0).val * (W.length - i)) % 65536 }
    ∧ RollingChecksum.new [1, 2, 3] 3 = { a := 6, b := 10 } := by
  constructor
  · have h := RollingChecksum.new_eq W W.length 0
    rw [List.drop_zero] at h
    rw [h]
    simp [RollingChecksum.windowSum, RollingChecksum.windowWeighted]
  · decide

/-! ## Lemmas: BackupStoreRefCountDatabase -/

namespace BackupStoreRefCountDatabase

/-- The byte at index `i` after a write: a byte before `pos` is the old byte
or a zero of the gap, a byte of the written range comes from `data`, a byte
after it is the old byte. -/
theorem getElem?_writeAt (bytes : List Byte) (pos : Nat) (data : List Byte) (i : Nat) :
    (writeAt bytes pos data)[i]? =
      if i < pos then (if i < bytes.length then bytes[i]? else some 0)
      else if i < pos + data.length then data[i - pos]?
      else bytes[i]? := by
  unfold writeAt
  simp only [List.append_assoc]
  have hlen : (bytes ++ List.replicate (pos - bytes.length) (0 : Byte)).length
      = max bytes.length pos := by
    simp only [List.length_append, List.length_replicate]; omega
  have htake : (List.take pos (bytes ++ List.replicate (pos - bytes.length) (0 : Byte))).length
      = pos := by
    rw [List.length_take, hlen]; omega
  by_cases h1 : i < pos
  · rw [if_pos h1, List.getElem?_append_left (by omega), List.getElem?_take_of_lt h1]
    by_cases h2 : i < bytes.length
    · rw [if_pos h2, List.getElem?_append_left h2]
    · rw [if_neg h2, List.getElem?_append_right (by omega), List.getElem?_replicate]
      rw [if_pos (by omega)]
  · rw [if_neg h1, List.getElem?_append_right (by omega), htake]
    by_cases h3 : i < pos + data.length
    · rw [if_pos h3, List.getElem?_append_left (by omega)]
    · rw [if_neg h3, List.getElem?_append_right (by omega), List.getElem?_drop]
      have e : pos + data.length + (i - pos - data.length) = i := by omega
      rw [e]
      by_cases h4 : i < bytes.length
      · rw [List.getElem?_append_left h4]
      · rw [List.getElem?_append_right (by omega), List.getElem?_replicate,
          if_neg (by omega), List.getElem?_eq_none (by omega)]

/-- A write extends the file to the end of the written range when that lies
beyond the old end, and otherwise keeps the size. -/
theorem length_writeAt (bytes : List Byte) (pos : Nat) (data : List Byte) :
    (writeAt bytes pos data).length = max bytes.length (pos + data.length) := by
  simp only [writeAt, List.length_append, List.length_take, List.length_drop,
    List.length_replicate]
  omega

theorem ntohl_htonl (v : Nat) (hv : v < 2 ^ 32) : ntohl (htonl v) = v := by
  simp only [ntohl, htonl]
  omega

theorem ntohl_lt (l : List Byte) : ntohl l < 2 ^ 32 := by
  unfold ntohl
  split
  · rename_i b0 b1 b2 b3
    have h0 := b0.isLt
    have h1 := b1.isLt
    have h2 := b2.isLt
    have h3 := b3.isLt
    omega
  · decide


theorem read_congr (l1 l2 : List Byte) (q n : Nat)
    (h : ∀ i, i < n → l1[q + i]? = l2[q + i]?) :
    (l1.drop q).take n = (l2.drop q).take n := by
  apply List.ext_getElem?
  intro i
  rw [List.getElem?_take, List.getElem?_take, List.getElem?_drop, List.getElem?_drop]
  by_cases hi : i < n
  · rw [if_pos hi, if_pos hi, h i hi]
  · rw [if_neg hi, if_neg hi]

/-- Reading back the written range returns the data written. -/
theorem read_writeAt_same (bytes : List Byte) (pos : Nat) (data : List Byte) :
    ((writeAt bytes pos data).drop pos).take data.length = data := by
  apply List.ext_getElem?
  intro i
  rw [List.getElem?_take, List.getElem?_drop, getElem?_writeAt]
  by_cases hi : i < data.length
  · rw [if_pos hi, if_neg (by omega), if_pos (by omega)]
    have e : pos + i - pos = i := by omega
    rw [e]
  · rw [if_neg hi, List.getElem?_eq_none (by omega)]

theorem read_writeAt_before (bytes : List Byte) (pos : Nat) (data : List Byte) (q n : Nat)
    (h1 : q + n ≤ pos) (h2 : q + n ≤ bytes.length) :
    ((writeAt bytes pos data).drop q).take n = (bytes.drop q).take n := by
  apply read_congr
  intro i hi
  rw [getElem?_writeAt, if_pos (by omega), if_pos (by omega)]

theorem read_writeAt_after (bytes : List Byte) (pos : Nat) (data : List Byte) (q n : Nat)
    (h1 : pos + data.length ≤ q) :
    ((writeAt bytes pos data).drop q).take n = (bytes.drop q).take n := by
  apply read_congr
  intro i hi
  rw [getElem?_writeAt, if_neg (by omega), if_neg (by omega)]

/-- A range between the old end of file and the write offset reads as zeros. -/
theorem read_writeAt_gap (bytes : List Byte) (pos : Nat) (data : List Byte) (q n : Nat)
    (h1 : q + n ≤ pos) (h2 : bytes.length ≤ q) :
    ((writeAt bytes pos data).drop q).take n = List.replicate n 0 := by
  apply List.ext_getElem?
  intro i
  rw [List.getElem?_take, List.getElem?_drop, getElem?_writeAt, List.getElem?_replicate]
  by_cases hi : i < n
  · rw [if_pos hi, if_pos hi, if_pos (by omega), if_neg (by omega)]
  · rw [if_neg hi, if_neg hi]

theorem length_htonl (v : Nat) : (htonl v).length = 4 := rfl

/-- A value within the signed 64-bit range is held as it is. -/
theorem toInt64_of_range (x : Int) (h1 : -2 ^ 63 ≤ x) (h2 : x < 2 ^ 63) : toInt64 x = x := by
  unfold toInt64
  omega

theorem toInt64_range (x : Int) : -2 ^ 63 ≤ toInt64 x ∧ toInt64 x < 2 ^ 63 := by
  unfold toInt64
  omega

theorem GetOffset_range (ObjectID : Int) :
    -2 ^ 63 ≤ GetOffset ObjectID ∧ GetOffset ObjectID < 2 ^ 63 :=
  toInt64_range _

/-- For an object ID whose slot ends below `2^63` the offset is `8 + 4 * (id -
1)` without wrap-around. -/
theorem GetOffset_eq (ObjectID : Int) (hid : 1 ≤ ObjectID)
    (hmax : 4 * ObjectID + 8 < 2 ^ 63) : GetOffset ObjectID = 4 * ObjectID + 4 := by
  simp only [GetOffset, GetEntrySize, SlotSize, HeaderSize]
  push_cast
  rw [toInt64_of_range _ (by omega) (by omega)]
  omega

/-- The end of a slot at a non-negative offset, taken in 64 bits, is at most
the exact end. -/
theorem toInt64_end_le (ObjectID : Int) (h0 : 0 ≤ GetOffset ObjectID) :
    toInt64 (GetOffset ObjectID + 4) ≤ GetOffset ObjectID + 4 := by
  have hr := GetOffset_range ObjectID
  unfold toInt64
  omega

theorem GetLastObjectIDUsed_eq (db : BackupStoreRefCountDatabase)
    (hsize : 8 ≤ db.mapDatabaseFile.bytes.length) :
    GetLastObjectIDUsed db = (((db.mapDatabaseFile.bytes.length - 8) / 4 : Nat) : Int) := by
  simp only [GetLastObjectIDUsed, GetSize, SlotSize, HeaderSize, toSizeT]
  push_cast
  rw [if_neg (by omega)]
  omega

/-- A slot that the size test of line 177 refuses: the unknown-object error,
with the handle untouched. -/
theorem GetRefCount_unknown (db : BackupStoreRefCountDatabase) (ObjectID : Int)
    (h : GetSize db < toInt64 (GetOffset ObjectID + 4)) :
    GetRefCount db ObjectID = (.error .UnknownObjectRefCountRequested, db) := by
  unfold GetRefCount
  simp only [GetEntrySize, SlotSize, Nat.cast_ofNat]
  rw [if_pos h]

/-- A slot at a non-negative offset that lies within the file is read and
decoded. -/
theorem GetRefCount_within (db : BackupStoreRefCountDatabase) (ObjectID : Int)
    (h0 : 0 ≤ GetOffset ObjectID)
    (hin : GetOffset ObjectID + 4 ≤ (db.mapDatabaseFile.bytes.length : Int)) :
    GetRefCount db ObjectID =
      (.ok (ntohl ((db.mapDatabaseFile.bytes.drop (GetOffset ObjectID).toNat).take 4)),
        { db with mapDatabaseFile :=
            { db.mapDatabaseFile with pos := (GetOffset ObjectID).toNat + 4 } }) := by
  have hle := toInt64_end_le ObjectID h0
  unfold GetRefCount
  simp only [GetEntrySize, SlotSize, FileStream.Seek, FileStream.Read, Nat.cast_ofNat, GetSize]
  rw [if_neg (by omega), if_neg (by omega)]
  have hlen : (List.take 4 (List.drop (GetOffset ObjectID).toNat
      db.mapDatabaseFile.bytes)).length = 4 := by
    rw [List.length_take, List.length_drop]
    omega
  simp only [hlen, ne_eq, not_true_eq_false, if_false]

/-- A read that returned a count was made at a non-negative offset, on a slot
that lies within the file, and returned the decoded 4 bytes of the slot. -/
theorem GetRefCount_ok_within (db : BackupStoreRefCountDatabase) (ObjectID : Int) (c : Nat)
    (hc : (GetRefCount db ObjectID).1 = .ok c) :
    0 ≤ GetOffset ObjectID ∧
    GetOffset ObjectID + 4 ≤ (db.mapDatabaseFile.bytes.length : Int) ∧
    c = ntohl ((db.mapDatabaseFile.bytes.drop (GetOffset ObjectID).toNat).take 4) ∧
    c < 2 ^ 32 := by
  have key : 0 ≤ GetOffset ObjectID ∧
      GetOffset ObjectID + 4 ≤ (db.mapDatabaseFile.bytes.length : Int) := by
    by_contra hcon
    unfold GetRefCount at hc
    simp only [GetEntrySize, SlotSize, FileStream.Seek, FileStream.Read, Nat.cast_ofNat] at hc
    split at hc
    · exact absurd hc (by simp)
    · by_cases hneg : GetOffset ObjectID < 0
      · rw [if_pos hneg] at hc
        exact absurd hc (by simp)
      · rw [if_neg hneg] at hc
        simp only at hc
        split at hc
        · exact absurd hc (by simp)
        · rename_i hlen
          rw [List.length_take, List.length_drop] at hlen
          apply hcon
          constructor <;> omega
  obtain ⟨h0, hin⟩ := key
  rw [GetRefCount_within db ObjectID h0 hin] at hc
  have hval := (Except.ok.inj hc).symm
  refine ⟨h0, hin, hval, ?_⟩
  rw [hval]
  exact ntohl_lt _

/-- For a non-negative slot offset whose end is below `2^63`, `GetRefCount`
either refuses the slot as unknown or returns the decoded 4 bytes at the
offset; the read never comes up short. -/
theorem GetRefCount_eq (db : BackupStoreRefCountDatabase) (ObjectID : Int)
    (h0 : 0 ≤ GetOffset ObjectID) (hend : GetOffset ObjectID + 4 < 2 ^ 63) :
    GetRefCount db ObjectID =
      if GetSize db < GetOffset ObjectID + 4 then
        (.error .UnknownObjectRefCountRequested, db)
      else
        (.ok (ntohl ((db.mapDatabaseFile.bytes.drop (GetOffset ObjectID).toNat).take 4)),
          { db with mapDatabaseFile :=
              { db.mapDatabaseFile with pos := (GetOffset ObjectID).toNat + 4 } }) := by
  have hw := toInt64_of_range (GetOffset ObjectID + 4) (by omega) hend
  by_cases h : GetSize db < GetOffset ObjectID + 4
  · rw [if_pos h, GetRefCount_unknown db ObjectID (by rw [hw]; exact h)]
  · rw [if_neg h]
    simp only [GetSize] at h
    exact GetRefCount_within db ObjectID h0 (by omega)

/-- On a writable stream and for a non-negative slot offset `SetRefCount`
succeeds and writes the 4 bytes of `htonl` at the offset. -/
theorem SetRefCount_eq (db : BackupStoreRefCountDatabase) (ObjectID : Int) (NewRefCount : Nat)
    (h0 : 0 ≤ GetOffset ObjectID) (hrw : db.mapDatabaseFile.readOnly = false) :
    SetRefCount db ObjectID NewRefCount =
      (.ok (), { db with mapDatabaseFile :=
          { bytes := writeAt db.mapDatabaseFile.bytes (GetOffset ObjectID).toNat
              (htonl NewRefCount)
            pos := (GetOffset ObjectID).toNat + 4
            readOnly := false } }) := by
  unfold SetRefCount
  simp only [FileStream.Seek, FileStream.Write, if_neg (not_lt.2 h0), hrw, length_htonl]
  simp

/-- A `SetRefCount` that does not reach its write, because the offset is
negative or the stream is read-only, leaves the bytes of the file alone. -/
theorem SetRefCount_bytes (db : BackupStoreRefCountDatabase) (ObjectID : Int) (v : Nat) :
    (SetRefCount db ObjectID v).2.mapDatabaseFile.readOnly = db.mapDatabaseFile.readOnly ∧
    ((SetRefCount db ObjectID v).2.mapDatabaseFile.bytes = db.mapDatabaseFile.bytes ∨
      (0 ≤ GetOffset ObjectID ∧
        (SetRefCount db ObjectID v).2.mapDatabaseFile.bytes =
          writeAt db.mapDatabaseFile.bytes (GetOffset ObjectID).toNat (htonl v))) := by
  by_cases h0 : 0 ≤ GetOffset ObjectID
  · cases hrw : db.mapDatabaseFile.readOnly with
    | false =>
      rw [SetRefCount_eq db ObjectID v h0 hrw]
      exact ⟨rfl, Or.inr ⟨h0, rfl⟩⟩
    | true =>
      unfold SetRefCount
      simp only [FileStream.Seek, FileStream.Write, if_neg (not_lt.2 h0), hrw]
      exact ⟨by simp [hrw], Or.inl rfl⟩
  · unfold SetRefCount
    simp only [FileStream.Seek, if_pos (not_le.1 h0)]
    exact ⟨trivial, Or.inl trivial⟩

theorem GetRefCount_fst (db : BackupStoreRefCountDatabase) (ObjectID : Int)
    (h0 : 0 ≤ GetOffset ObjectID) (hend : GetOffset ObjectID + 4 < 2 ^ 63) :
    (GetRefCount db ObjectID).1 =
      if (db.mapDatabaseFile.bytes.length : Int) < GetOffset ObjectID + 4 then
        .error .UnknownObjectRefCountRequested
      else
        .ok (ntohl ((db.mapDatabaseFile.bytes.drop (GetOffset ObjectID).toNat).take 4)) := by
  rw [GetRefCount_eq db ObjectID h0 hend]
  simp only [GetSize]
  split <;> rfl

theorem GetRefCount_snd (db : BackupStoreRefCountDatabase) (ObjectID : Int) :
    (GetRefCount db ObjectID).2.mapDatabaseFile.bytes = db.mapDatabaseFile.bytes ∧
    (GetRefCount db ObjectID).2.mapDatabaseFile.readOnly = db.mapDatabaseFile.readOnly := by
  unfold GetRefCount
  simp only [FileStream.Seek, FileStream.Read]
  split
  · exact ⟨rfl, rfl⟩
  · by_cases hneg : GetOffset ObjectID < 0
    · rw [if_pos hneg]
      exact ⟨rfl, rfl⟩
    · rw [if_neg hneg]
      simp only
      split <;> exact ⟨rfl, rfl⟩

theorem Create_none (accountID : Int) (AllowOverwrite : Bool) :
    Create accountID AllowOverwrite none =
      (.ok (), some (htonl REFCOUNT_MAGIC_VALUE ++ htonl (toUInt32 accountID))) := by
  simp [Create, FileStream.Write, writeAt]

/-- A successful `Load` returns a handle on the bytes of the file, which are at
least a header, positioned after the header. -/
theorem Load_ok (accountID : Int) (ReadOnly : Bool) (file : Option (List Byte))
    (db : BackupStoreRefCountDatabase) (h : Load accountID ReadOnly file = .ok db) :
    ∃ bytes, file = some bytes ∧ 8 ≤ bytes.length ∧
      db = { mAccountID := accountID, mReadOnly := ReadOnly,
             mapDatabaseFile := { bytes := bytes, pos := 8, readOnly := ReadOnly } } := by
  cases file with
  | none => simp [Load] at h
  | some bytes =>
    refine ⟨bytes, rfl, ?_⟩
    simp only [Load, FileStream.Read, HeaderSize] at h
    split at h
    · exact absurd h (by simp)
    · rename_i hlen
      split at h
      · exact absurd h (by simp)
      · have hl : (List.take 8 (List.drop 0 bytes)).length = 8 := by
          by_contra hne
          exact hlen hne
        rw [List.length_take, List.length_drop] at hl
        refine ⟨by omega, ?_⟩
        have h2 := Except.ok.inj h
        rw [← h2]
        simp only [List.drop_zero, List.length_take, Nat.zero_add]
        congr

/-- The table loaded read-write after `Create` on an absent file is header-only
and writable. -/
theorem Load_Create_fresh (accountID : Int) (AllowOverwrite : Bool)
    (db : BackupStoreRefCountDatabase)
    (h : Load accountID false (Create accountID AllowOverwrite none).2 = .ok db) :
    db.mapDatabaseFile.bytes.length = 8 ∧ db.mapDatabaseFile.readOnly = false := by
  rw [Create_none] at h
  obtain ⟨bytes, hb, _, hdb⟩ := Load_ok _ _ _ _ h
  have hb2 := Option.some.inj hb
  subst hdb
  rw [← hb2]
  exact ⟨rfl, rfl⟩

theorem ntohl_htonl_mod (v : Nat) : ntohl (htonl v) = v % 2 ^ 32 := by
  simp only [ntohl, htonl]
  omega

theorem ntohl_zeros : ntohl (List.replicate 4 0) = 0 := rfl

theorem SetRefCount_spec (db : BackupStoreRefCountDatabase) (ObjectID : Int) (v : Nat)
    (h0 : 0 ≤ GetOffset ObjectID) (hrw : db.mapDatabaseFile.readOnly = false) :
    (SetRefCount db ObjectID v).1 = .ok () ∧
    (SetRefCount db ObjectID v).2.mapDatabaseFile.bytes =
      writeAt db.mapDatabaseFile.bytes (GetOffset ObjectID).toNat (htonl v) ∧
    (SetRefCount db ObjectID v).2.mapDatabaseFile.readOnly = false := by
  rw [SetRefCount_eq db ObjectID v h0 hrw]
  exact ⟨rfl, rfl, rfl⟩

/-- The slot just written reads back as the value written, for every
non-negative offset. -/
theorem GetRefCount_writeAt_same (db1 : BackupStoreRefCountDatabase) (bs : List Byte)
    (ObjectID : Int) (v : Nat) (h0 : 0 ≤ GetOffset ObjectID)
    (hb : db1.mapDatabaseFile.bytes = writeAt bs (GetOffset ObjectID).toNat (htonl v)) :
    (GetRefCount db1 ObjectID).1 = .ok (v % 2 ^ 32) := by
  have hlen := length_writeAt bs (GetOffset ObjectID).toNat (htonl v)
  rw [length_htonl, ← hb] at hlen
  have hread := read_writeAt_same bs (GetOffset ObjectID).toNat (htonl v)
  rw [length_htonl, ← hb] at hread
  rw [GetRefCount_within db1 ObjectID h0 (by omega)]
  simp only
  rw [hread, ntohl_htonl_mod]

theorem GetRefCount_writeAt_other (db1 : BackupStoreRefCountDatabase) (bs : List Byte)
    (ObjectID j : Int) (v : Nat) (h1 : 1 ≤ ObjectID) (hmax : 4 * ObjectID + 8 < 2 ^ 63)
    (hj : 1 ≤ j) (hne : j ≠ ObjectID)
    (hin : 4 * j + 8 ≤ (bs.length : Int)) (hjmax : 4 * j + 8 < 2 ^ 63)
    (hb : db1.mapDatabaseFile.bytes = writeAt bs (GetOffset ObjectID).toNat (htonl v)) :
    (GetRefCount db1 j).1 = .ok (ntohl ((bs.drop (GetOffset j).toNat).take 4)) := by
  have hoj := GetOffset_eq j hj hjmax
  have hoi := GetOffset_eq ObjectID h1 hmax
  have hlen := length_writeAt bs (GetOffset ObjectID).toNat (htonl v)
  rw [length_htonl, ← hb] at hlen
  rw [GetRefCount_within db1 j (by omega) (by omega)]
  simp only
  rw [hb]
  rcases Int.lt_or_gt_of_ne hne with hlt | hgt
  · rw [read_writeAt_before _ _ _ _ _ (by omega) (by omega)]
  · rw [read_writeAt_after _ _ _ _ _ (by rw [length_htonl]; omega)]

theorem GetRefCount_writeAt_gap (db1 : BackupStoreRefCountDatabase) (bs : List Byte)
    (ObjectID j : Int) (v : Nat) (hmax : 4 * ObjectID + 8 < 2 ^ 63)
    (hj : 1 ≤ j) (hlt : j < ObjectID)
    (hgap : (bs.length : Int) ≤ 4 * j + 4)
    (hb : db1.mapDatabaseFile.bytes = writeAt bs (GetOffset ObjectID).toNat (htonl v)) :
    (GetRefCount db1 j).1 = .ok 0 := by
  have hoj := GetOffset_eq j hj (by omega)
  have hoi := GetOffset_eq ObjectID (by omega) hmax
  have hlen := length_writeAt bs (GetOffset ObjectID).toNat (htonl v)
  rw [length_htonl, ← hb] at hlen
  rw [GetRefCount_within db1 j (by omega) (by omega)]
  simp only
  rw [hb, read_writeAt_gap _ _ _ _ _ (by omega) (by omega), ntohl_zeros]

/-- The result of `GetRefCount` as a function of the bytes of the file. -/
theorem GetRefCount_fst_bytes (db : BackupStoreRefCountDatabase) (j : Int) :
    (GetRefCount db j).1 =
      if (db.mapDatabaseFile.bytes.length : Int) < toInt64 (GetOffset j + 4) then
        .error .UnknownObjectRefCountRequested
      else if GetOffset j < 0 then .error .OSFileError
      else if (db.mapDatabaseFile.bytes.length : Int) < GetOffset j + 4 then
        .error .CouldNotLoadStoreInfo
      else .ok (ntohl ((db.mapDatabaseFile.bytes.drop (GetOffset j).toNat).take 4)) := by
  by_cases h1 : (db.mapDatabaseFile.bytes.length : Int) < toInt64 (GetOffset j + 4)
  · rw [if_pos h1, GetRefCount_unknown db j h1]
  · rw [if_neg h1]
    by_cases h2 : GetOffset j < 0
    · rw [if_pos h2]
      unfold GetRefCount
      simp only [GetEntrySize, SlotSize, FileStream.Seek, Nat.cast_ofNat, GetSize]
      rw [if_neg h1, if_pos h2]
    · rw [if_neg h2]
      by_cases h3 : (db.mapDatabaseFile.bytes.length : Int) < GetOffset j + 4
      · rw [if_pos h3]
        unfold GetRefCount
        simp only [GetEntrySize, SlotSize, FileStream.Seek, FileStream.Read, Nat.cast_ofNat,
          GetSize]
        rw [if_neg h1, if_neg h2]
        have hlen : (List.take 4 (List.drop (GetOffset j).toNat
            db.mapDatabaseFile.bytes)).length ≠ 4 := by
          rw [List.length_take, List.length_drop]
          omega
        simp only [hlen, ne_eq, not_false_eq_true, if_true]
      · rw [if_neg h3, GetRefCount_within db j (by omega) (by omega)]

/-- A slot reads the same on two handles with the same bytes. -/
theorem GetRefCount_congr (db db1 : BackupStoreRefCountDatabase) (j : Int)
    (hb : db1.mapDatabaseFile.bytes = db.mapDatabaseFile.bytes) :
    (GetRefCount db1 j).1 = (GetRefCount db j).1 := by
  rw [GetRefCount_fst_bytes db1 j, GetRefCount_fst_bytes db j, hb]

theorem AddReference_new (db : BackupStoreRefCountDatabase) (ObjectID : Int)
    (h : ObjectID > GetLastObjectIDUsed db) :
    AddReference db ObjectID = SetRefCount db ObjectID 1 := by
  rw [AddReference, if_pos h]
  rfl

theorem AddReference_existing (db : BackupStoreRefCountDatabase) (ObjectID : Int) (c : Nat)
    (h : ¬ ObjectID > GetLastObjectIDUsed db) (hc : (GetRefCount db ObjectID).1 = .ok c) :
    AddReference db ObjectID =
      SetRefCount (GetRefCount db ObjectID).2 ObjectID ((c + 1) % 2 ^ 32) := by
  rw [AddReference, if_neg h]
  revert hc
  generalize GetRefCount db ObjectID = r
  rcases r with ⟨r1, r2⟩
  intro hc
  simp only at hc
  subst hc
  rfl

theorem RemoveReference_positive (db : BackupStoreRefCountDatabase) (ObjectID : Int) (c : Nat)
    (hc : (GetRefCount db ObjectID).1 = .ok c) (hpos : 0 < c) :
    RemoveReference db ObjectID =
      match SetRefCount (GetRefCount db ObjectID).2 ObjectID ((c + 2 ^ 32 - 1) % 2 ^ 32) with
      | (.error e, db2) => (.error e, db2)
      | (.ok (), db2) => (.ok (decide ((c + 2 ^ 32 - 1) % 2 ^ 32 > 0)), db2) := by
  rw [RemoveReference]
  revert hc
  generalize GetRefCount db ObjectID = r
  rcases r with ⟨r1, r2⟩
  intro hc
  simp only at hc
  subst hc
  simp only [ASSERT, hpos, decide_True, if_true]

theorem RemoveReference_zero (db : BackupStoreRefCountDatabase) (ObjectID : Int)
    (hc : (GetRefCount db ObjectID).1 = .ok 0) :
    RemoveReference db ObjectID = (.error .AssertFailed, (GetRefCount db ObjectID).2) := by
  rw [RemoveReference]
  revert hc
  generalize GetRefCount db ObjectID = r
  rcases r with ⟨r1, r2⟩
  intro hc
  simp only at hc
  subst hc
  rfl

theorem RemoveReference_error (db : BackupStoreRefCountDatabase) (ObjectID : Int)
    (e : Exception) (hc : (GetRefCount db ObjectID).1 = .error e) :
    RemoveReference db ObjectID = (.error e, (GetRefCount db ObjectID).2) := by
  rw [RemoveReference]
  revert hc
  generalize GetRefCount db ObjectID = r
  rcases r with ⟨r1, r2⟩
  intro hc
  simp only at hc
  subst hc
  rfl

theorem AddReference_error (db : BackupStoreRefCountDatabase) (ObjectID : Int)
    (e : Exception) (h : ¬ ObjectID > GetLastObjectIDUsed db)
    (hc : (GetRefCount db ObjectID).1 = .error e) :
    AddReference db ObjectID = (.error e, (GetRefCount db ObjectID).2) := by
  rw [AddReference, if_neg h]
  revert hc
  generalize GetRefCount db ObjectID = r
  rcases r with ⟨r1, r2⟩
  intro hc
  simp only at hc
  subst hc
  rfl

/-- What a call can do to the bytes of the file: nothing, or one write of four
bytes at the offset of its target, which is then non-negative. -/
theorem Call.run_bytes (db : BackupStoreRefCountDatabase) (c : Call) :
    (c.run db).mapDatabaseFile.readOnly = db.mapDatabaseFile.readOnly ∧
    ((c.run db).mapDatabaseFile.bytes = db.mapDatabaseFile.bytes ∨
      (0 ≤ GetOffset c.target ∧ ∃ v, (c.run db).mapDatabaseFile.bytes =
        writeAt db.mapDatabaseFile.bytes (GetOffset c.target).toNat (htonl v))) := by
  cases c with
  | set ObjectID v =>
    obtain ⟨hr, hb⟩ := SetRefCount_bytes db ObjectID v
    exact ⟨hr, hb.elim Or.inl (fun h => Or.inr ⟨h.1, v, h.2⟩)⟩
  | add ObjectID =>
    simp only [Call.run, Call.target]
    obtain ⟨hb1, hr1⟩ := GetRefCount_snd db ObjectID
    by_cases hnew : ObjectID > GetLastObjectIDUsed db
    · rw [AddReference_new db ObjectID hnew]
      obtain ⟨hr, hb⟩ := SetRefCount_bytes db ObjectID 1
      exact ⟨hr, hb.elim Or.inl (fun h => Or.inr ⟨h.1, 1, h.2⟩)⟩
    · cases hget : (GetRefCount db ObjectID).1 with
      | error e =>
        rw [AddReference_error db ObjectID e hnew hget]
        exact ⟨hr1, Or.inl hb1⟩
      | ok n =>
        rw [AddReference_existing db ObjectID n hnew hget]
        obtain ⟨hr, hb⟩ := SetRefCount_bytes (GetRefCount db ObjectID).2 ObjectID
          ((n + 1) % 2 ^ 32)
        rw [hb1] at hb
        rw [hr1] at hr
        exact ⟨hr, hb.elim Or.inl (fun h => Or.inr ⟨h.1, _, h.2⟩)⟩
  | remove ObjectID =>
    simp only [Call.run, Call.target]
    obtain ⟨hb1, hr1⟩ := GetRefCount_snd db ObjectID
    cases hget : (GetRefCount db ObjectID).1 with
    | error e =>
      rw [RemoveReference_error db ObjectID e hget]
      exact ⟨hr1, Or.inl hb1⟩
    | ok n =>
      by_cases hn : n = 0
      · subst hn
        rw [RemoveReference_zero db ObjectID hget]
        exact ⟨hr1, Or.inl hb1⟩
      · obtain ⟨hr, hb⟩ := SetRefCount_bytes (GetRefCount db ObjectID).2 ObjectID
          ((n + 2 ^ 32 - 1) % 2 ^ 32)
        rw [hb1] at hb
        rw [hr1] at hr
        rw [RemoveReference_positive db ObjectID n hget (by omega)]
        revert hr hb
        generalize SetRefCount (GetRefCount db ObjectID).2 ObjectID
          ((n + 2 ^ 32 - 1) % 2 ^ 32) = q
        rcases q with ⟨q1, q2⟩
        intro hr hb
        have hsnd : (match ((q1, q2) : Except Exception Unit × BackupStoreRefCountDatabase) with
            | (.error e, db2) => ((.error e : Except Exception Bool), db2)
            | (.ok (), db2) => (.ok (decide ((n + 2 ^ 32 - 1) % 2 ^ 32 > 0)), db2)).2 = q2 := by
          cases q1 <;> rfl
        rw [hsnd]
        exact ⟨hr, hb.elim Or.inl (fun h => Or.inr ⟨h.1, _, h.2⟩)⟩

/-- The invariant of a table grown from a header-only file by calls whose
slots end below `2^63`: the stream is writable, the file is a header followed
by whole slots and is shorter than `2^63` bytes, and every slot whose ID
satisfies `U` reads as zero. -/
theorem Call.run_invariant (db : BackupStoreRefCountDatabase) (c : Call) (U : Int → Prop)
    (hid : 1 ≤ c.target) (hmax : 4 * c.target + 8 < 2 ^ 63)
    (hrw : db.mapDatabaseFile.readOnly = false)
    (hsize : 8 ≤ db.mapDatabaseFile.bytes.length)
    (hlt : (db.mapDatabaseFile.bytes.length : Int) < 2 ^ 63)
    (halign : (db.mapDatabaseFile.bytes.length - 8) % 4 = 0)
    (hzero : ∀ j : Int, 1 ≤ j → j ≤ GetLastObjectIDUsed db → U j →
      (GetRefCount db j).1 = .ok 0) :
    (c.run db).mapDatabaseFile.readOnly = false ∧
    8 ≤ (c.run db).mapDatabaseFile.bytes.length ∧
    ((c.run db).mapDatabaseFile.bytes.length : Int) < 2 ^ 63 ∧
    ((c.run db).mapDatabaseFile.bytes.length - 8) % 4 = 0 ∧
    ∀ j : Int, 1 ≤ j → j ≤ GetLastObjectIDUsed (c.run db) → (U j ∧ c.target ≠ j) →
      (GetRefCount (c.run db) j).1 = .ok 0 := by
  obtain ⟨hr, hb⟩ := Call.run_bytes db c
  rw [hrw] at hr
  have hoff := GetOffset_eq c.target hid hmax
  have hlast := GetLastObjectIDUsed_eq db hsize
  rcases hb with hsame | ⟨_, v, hwrite⟩
  · have hlast2 := GetLastObjectIDUsed_eq (c.run db) (by rw [hsame]; exact hsize)
    refine ⟨hr, by rw [hsame]; exact hsize, by rw [hsame]; exact hlt,
      by rw [hsame]; exact halign, ?_⟩
    intro j hj hle hU
    rw [hlast2, hsame, ← hlast] at hle
    rw [GetRefCount_congr db (c.run db) j hsame]
    exact hzero j hj hle hU.1
  · have hlen := length_writeAt db.mapDatabaseFile.bytes (GetOffset c.target).toNat (htonl v)
    rw [length_htonl, ← hwrite] at hlen
    have hsize2 : 8 ≤ (c.run db).mapDatabaseFile.bytes.length := by omega
    have hlast2 := GetLastObjectIDUsed_eq (c.run db) hsize2
    refine ⟨hr, hsize2, by omega, by omega, ?_⟩
    intro j hj hle hU
    by_cases hin : 4 * j + 8 ≤ (db.mapDatabaseFile.bytes.length : Int)
    · have hoj := GetOffset_eq j hj (by omega)
      rw [GetRefCount_writeAt_other _ _ c.target j v hid hmax hj (Ne.symm hU.2) hin
        (by omega) hwrite]
      have hold := hzero j hj (by omega) hU.1
      rw [GetRefCount_within db j (by omega) (by omega)] at hold
      exact hold
    · have hne : c.target ≠ j := hU.2
      exact GetRefCount_writeAt_gap _ _ c.target j v hmax hj (by omega) (by omega) hwrite

/-- The invariant of `Call.run_invariant` carried along a sequence of calls. -/
theorem runCalls_invariant (calls : List Call) :
    ∀ (db : BackupStoreRefCountDatabase) (U : Int → Prop),
      (∀ c ∈ calls, 1 ≤ c.target ∧ 4 * c.target + 8 < 2 ^ 63) →
      db.mapDatabaseFile.readOnly = false →
      8 ≤ db.mapDatabaseFile.bytes.length →
      (db.mapDatabaseFile.bytes.length : Int) < 2 ^ 63 →
      (db.mapDatabaseFile.bytes.length - 8) % 4 = 0 →
      (∀ j : Int, 1 ≤ j → j ≤ GetLastObjectIDUsed db → U j → (GetRefCount db j).1 = .ok 0) →
      (runCalls db calls).mapDatabaseFile.readOnly = false ∧
      8 ≤ (runCalls db calls).mapDatabaseFile.bytes.length ∧
      ((runCalls db calls).mapDatabaseFile.bytes.length : Int) < 2 ^ 63 ∧
      ((runCalls db calls).mapDatabaseFile.bytes.length - 8) % 4 = 0 ∧
      ∀ j : Int, 1 ≤ j → j ≤ GetLastObjectIDUsed (runCalls db calls) →
        (U j ∧ ∀ c ∈ calls, c.target ≠ j) → (GetRefCount (runCalls db calls) j).1 = .ok 0 := by
  induction calls with
  | nil =>
    intro db U _ hrw hsize hlt halign hzero
    exact ⟨hrw, hsize, hlt, halign, fun j hj hle hU => hzero j hj hle hU.1⟩
  | cons c rest ih =>
    intro db U hids hrw hsize hlt halign hzero
    obtain ⟨hr1, hs1, hl1, ha1, hz1⟩ := Call.run_invariant db c U
      (hids c (List.mem_cons_self _ _)).1 (hids c (List.mem_cons_self _ _)).2
      hrw hsize hlt halign hzero
    obtain ⟨hr2, hs2, hl2, ha2, hz2⟩ := ih (c.run db) (fun j => U j ∧ c.target ≠ j)
      (fun c1 hc1 => hids c1 (List.mem_cons_of_mem _ hc1)) hr1 hs1 hl1 ha1 hz1
    refine ⟨hr2, hs2, hl2, ha2, ?_⟩
    intro j hj hle hU
    exact hz2 j hj hle
      ⟨⟨hU.1, hU.2 c (List.mem_cons_self _ _)⟩,
        fun c1 hc1 => hU.2 c1 (List.mem_cons_of_mem _ hc1)⟩

/-- `AddReference` on a slot beyond the table at a non-negative offset, or on a
slot of the table that holds `c`: no error, the stream stays writable, and the
slot holds `c + 1` afterwards (1 for a new slot), reduced modulo `2^32`. -/
theorem AddReference_spec (db : BackupStoreRefCountDatabase) (ObjectID : Int) (c : Nat)
    (hrw : db.mapDatabaseFile.readOnly = false)
    (hsize : 8 ≤ db.mapDatabaseFile.bytes.length)
    (hc : (ObjectID > GetLastObjectIDUsed db ∧ c = 0 ∧ 0 ≤ GetOffset ObjectID) ∨
      (ObjectID ≤ GetLastObjectIDUsed db ∧ (GetRefCount db ObjectID).1 = .ok c)) :
    (AddReference db ObjectID).1 = .ok () ∧
    (AddReference db ObjectID).2.mapDatabaseFile.readOnly = false ∧
    8 ≤ (AddReference db ObjectID).2.mapDatabaseFile.bytes.length ∧
    (GetRefCount (AddReference db ObjectID).2 ObjectID).1 = .ok ((c + 1) % 2 ^ 32) := by
  obtain ⟨hb1, hr1⟩ := GetRefCount_snd db ObjectID
  rcases hc with ⟨hnew, hc0, h0⟩ | ⟨hle, hget⟩
  · subst hc0
    obtain ⟨hok, hbytes, hr⟩ := SetRefCount_spec db ObjectID 1 h0 hrw
    have hlen := length_writeAt db.mapDatabaseFile.bytes (GetOffset ObjectID).toNat (htonl 1)
    rw [AddReference_new db ObjectID hnew]
    exact ⟨hok, hr, by rw [hbytes]; omega, GetRefCount_writeAt_same _ _ ObjectID 1 h0 hbytes⟩
  · obtain ⟨h0, _, _, _⟩ := GetRefCount_ok_within db ObjectID c hget
    obtain ⟨hok, hbytes, hr⟩ := SetRefCount_spec (GetRefCount db ObjectID).2 ObjectID
      ((c + 1) % 2 ^ 32) h0 (by rw [hr1]; exact hrw)
    rw [hb1] at hbytes
    have hlen := length_writeAt db.mapDatabaseFile.bytes
      (GetOffset ObjectID).toNat (htonl ((c + 1) % 2 ^ 32))
    rw [AddReference_existing db ObjectID c (by omega) hget]
    refine ⟨hok, hr, by rw [hbytes]; omega, ?_⟩
    rw [GetRefCount_writeAt_same _ _ ObjectID _ h0 hbytes, Nat.mod_mod]

/-- `RemoveReference` on a slot that holds `c ≥ 1`: returns whether `c - 1` is
positive, the stream stays writable, the file keeps its size, and the slot
holds `c - 1` afterwards. -/
theorem RemoveReference_spec (db : BackupStoreRefCountDatabase) (ObjectID : Int) (c : Nat)
    (hrw : db.mapDatabaseFile.readOnly = false)
    (hc : (GetRefCount db ObjectID).1 = .ok c) (hpos : 1 ≤ c) :
    (RemoveReference db ObjectID).1 = .ok (decide (c - 1 > 0)) ∧
    (RemoveReference db ObjectID).2.mapDatabaseFile.readOnly = false ∧
    (RemoveReference db ObjectID).2.mapDatabaseFile.bytes.length =
      db.mapDatabaseFile.bytes.length ∧
    (GetRefCount (RemoveReference db ObjectID).2 ObjectID).1 = .ok (c - 1) := by
  obtain ⟨h0, hin, _, hclt⟩ := GetRefCount_ok_within db ObjectID c hc
  have hdec : (c + 2 ^ 32 - 1) % 2 ^ 32 = c - 1 := by omega
  obtain ⟨hb1, hr1⟩ := GetRefCount_snd db ObjectID
  have hset := SetRefCount_eq (GetRefCount db ObjectID).2 ObjectID (c - 1) h0
    (by rw [hr1]; exact hrw)
  rw [RemoveReference_positive db ObjectID c hc hpos, hdec, hset]
  have hmod : (c - 1) % 2 ^ 32 = c - 1 := by omega
  refine ⟨rfl, rfl, ?_, ?_⟩
  · simp only
    rw [length_writeAt, length_htonl, hb1]
    omega
  · rw [GetRefCount_writeAt_same _ _ ObjectID (c - 1) h0 rfl, hmod]

/-- A successful read of a slot that ends below `2^63` is of a slot of the
table. -/
theorem le_last_of_ok (db : BackupStoreRefCountDatabase) (ObjectID : Int) (c : Nat)
    (hsize : 8 ≤ db.mapDatabaseFile.bytes.length) (hid : 1 ≤ ObjectID)
    (hmax : 4 * ObjectID + 8 < 2 ^ 63) (hc : (GetRefCount db ObjectID).1 = .ok c) :
    ObjectID ≤ GetLastObjectIDUsed db := by
  obtain ⟨_, hin, _, _⟩ := GetRefCount_ok_within db ObjectID c hc
  have hoff := GetOffset_eq ObjectID hid hmax
  rw [GetLastObjectIDUsed_eq db hsize]
  omega

theorem AddReferenceTimes_spec (db : BackupStoreRefCountDatabase) (ObjectID : Int)
    (hrw : db.mapDatabaseFile.readOnly = false)
    (hsize : 8 ≤ db.mapDatabaseFile.bytes.length) (hid : 1 ≤ ObjectID)
    (hmax : 4 * ObjectID + 8 < 2 ^ 63)
    (hc : ObjectID > GetLastObjectIDUsed db ∨ (GetRefCount db ObjectID).1 = .ok 0) :
    ∀ n : Nat, n + 1 < 2 ^ 32 →
      (AddReferenceTimes db ObjectID (n + 1)).1 = .ok () ∧
      (AddReferenceTimes db ObjectID (n + 1)).2.mapDatabaseFile.readOnly = false ∧
      8 ≤ (AddReferenceTimes db ObjectID (n + 1)).2.mapDatabaseFile.bytes.length ∧
      (GetRefCount (AddReferenceTimes db ObjectID (n + 1)).2 ObjectID).1 = .ok (n + 1) := by
  have hoff := GetOffset_eq ObjectID hid hmax
  intro n
  induction n with
  | zero =>
    intro _
    have h := AddReference_spec db ObjectID 0 hrw hsize
      (by
        by_cases hnew : ObjectID > GetLastObjectIDUsed db
        · exact Or.inl ⟨hnew, rfl, by omega⟩
        · rcases hc with h | h
          · exact absurd h hnew
          · exact Or.inr ⟨by omega, h⟩)
    simpa [AddReferenceTimes] using h
  | succ n ih =>
    intro hn
    obtain ⟨hok, hr, hs, hget⟩ := ih (by omega)
    have hstep : AddReferenceTimes db ObjectID (n + 1 + 1) =
        AddReference (AddReferenceTimes db ObjectID (n + 1)).2 ObjectID := by
      rw [AddReferenceTimes]
      revert hok
      generalize AddReferenceTimes db ObjectID (n + 1) = r
      rcases r with ⟨r1, r2⟩
      intro hok
      simp only at hok
      subst hok
      rfl
    have h := AddReference_spec _ ObjectID (n + 1) hr hs
      (Or.inr ⟨le_last_of_ok _ ObjectID _ hs hid hmax hget, hget⟩)
    have hmod : (n + 1 + 1) % 2 ^ 32 = n + 1 + 1 := Nat.mod_eq_of_lt (by omega)
    rw [hmod] at h
    rw [hstep]
    exact h

theorem RemoveReferenceTimes_spec (db : BackupStoreRefCountDatabase) (ObjectID : Int)
    (m : Nat) (hrw : db.mapDatabaseFile.readOnly = false)
    (hc : (GetRefCount db ObjectID).1 = .ok m) :
    ∀ k : Nat, k ≤ m →
      (RemoveReferenceTimes db ObjectID k).1 =
        .ok ((List.range k).map (fun i => decide (i + 1 < m))) ∧
      (RemoveReferenceTimes db ObjectID k).2.mapDatabaseFile.readOnly = false ∧
      (GetRefCount (RemoveReferenceTimes db ObjectID k).2 ObjectID).1 = .ok (m - k) := by
  intro k
  induction k with
  | zero =>
    intro _
    exact ⟨rfl, hrw, hc⟩
  | succ k ih =>
    intro hk
    obtain ⟨hres, hr, hget⟩ := ih (by omega)
    obtain ⟨h1, h2, _, h3⟩ := RemoveReference_spec _ ObjectID (m - k) hr hget (by omega)
    have hstep : RemoveReferenceTimes db ObjectID (k + 1) =
        ((RemoveReference (RemoveReferenceTimes db ObjectID k).2 ObjectID).1.map
            (fun r => (List.range k).map (fun i => decide (i + 1 < m)) ++ [r]),
          (RemoveReference (RemoveReferenceTimes db ObjectID k).2 ObjectID).2) := by
      rw [RemoveReferenceTimes]
      revert hres h1
      generalize RemoveReferenceTimes db ObjectID k = r
      rcases r with ⟨r1, r2⟩
      intro hres
      simp only at hres
      subst hres
      simp only
      generalize RemoveReference r2 ObjectID = q
      rcases q with ⟨q1, q2⟩
      intro h1
      simp only at h1
      subst h1
      rfl
    rw [hstep]
    refine ⟨?_, h2, ?_⟩
    · simp only
      rw [h1, List.range_succ, List.map_append]
      have e : decide (m - k - 1 > 0) = decide (k + 1 < m) := by
        apply decide_eq_decide.2
        omega
      rw [e]
      rfl
    · simp only
      rw [h3]
      congr 1

/-- The outcome of `Load` on an existing file, written out: a short file, a
bad header, or a handle positioned after the header. -/
theorem Load_some (accountID : Int) (ReadOnly : Bool) (F : List Byte) :
    Load accountID ReadOnly (some F) =
      if F.length < 8 then .error .CouldNotLoadStoreInfo
      else if ntohl (F.take 4) ≠ REFCOUNT_MAGIC_VALUE ∨
          toInt32 (ntohl ((F.drop 4).take 4)) ≠ accountID then
        .error .BadStoreInfoOnLoad
      else
        .ok { mAccountID := accountID, mReadOnly := ReadOnly,
              mapDatabaseFile := { bytes := F, pos := 8, readOnly := ReadOnly } } := by
  simp only [Load, FileStream.Read, HeaderSize, List.drop_zero, List.length_take,
    List.take_take, List.drop_take, Nat.zero_add]
  by_cases h : F.length < 8
  · rw [if_pos (by omega), if_pos h]
  · rw [if_neg (by omega), if_neg h]
    have hmin : min 8 F.length = 8 := by omega
    simp only [hmin]
    rfl

/-- The outcome of `Create`, written out. -/
theorem Create_eq (accountID : Int) (AllowOverwrite : Bool) (file : Option (List Byte)) :
    Create accountID AllowOverwrite file =
      if file.isSome && !AllowOverwrite then (.error .CannotOverwriteExistingFile, file)
      else (.ok (), some (writeAt (file.getD []) 0
        (htonl REFCOUNT_MAGIC_VALUE ++ htonl (toUInt32 accountID)))) := by
  simp only [Create, FileStream.Write]
  split <;> simp

/-- A write at offset 0 puts the data at the start of the file. -/
theorem take_writeAt_zero (bytes data : List Byte) :
    (writeAt bytes 0 data).take data.length = data := by
  have h := read_writeAt_same bytes 0 data
  rw [List.drop_zero] at h
  exact h

/-- A write at offset 0 keeps every byte of the file beyond the data. -/
theorem drop_writeAt_zero (bytes data : List Byte) :
    (writeAt bytes 0 data).drop data.length = bytes.drop data.length := by
  apply List.ext_getElem?
  intro i
  rw [List.getElem?_drop, List.getElem?_drop, getElem?_writeAt, if_neg (by omega),
    if_neg (by omega)]

theorem toInt32_toUInt32 (x : Int) (h1 : -2 ^ 31 ≤ x) (h2 : x < 2 ^ 31) :
    toInt32 (toUInt32 x % 2 ^ 32) = x := by
  unfold toInt32 toUInt32
  split <;> omega

/-- Files with the same first 8 bytes give the same outcome of `Load`. -/
theorem Load_outcome_congr (x : Int) (ReadOnly : Bool) (F G : List Byte)
    (hG : G.take 8 = F.take 8) :
    (Load x ReadOnly (some G)).map (fun _ => ()) =
      (Load x ReadOnly (some F)).map (fun _ => ()) := by
  have hF := Load_some x ReadOnly F
  have hG2 := Load_some x ReadOnly G
  have hlen : G.length < 8 ↔ F.length < 8 := by
    have h1 := congrArg List.length hG
    rw [List.length_take, List.length_take] at h1
    omega
  have h4 : G.take 4 = F.take 4 := by
    have h1 := congrArg (List.take 4) hG
    rw [List.take_take, List.take_take] at h1
    exact h1
  have h48 : (G.drop 4).take 4 = (F.drop 4).take 4 := by
    have h1 := congrArg (List.drop 4) hG
    rw [List.drop_take, List.drop_take] at h1
    exact h1
  rw [hF, hG2, h4, h48]
  by_cases hl : F.length < 8
  · rw [if_pos hl, if_pos (hlen.2 hl)]
  · rw [if_neg hl, if_neg (fun h => hl (hlen.1 h))]
    split <;> rfl

/-- On a writable table with a file of at least 8 bytes `AddReference(id)`, for
an `id ≥ 1` whose slot ends below `2^63`, raises no error and is one write of
four bytes at the slot of `id`. -/
theorem AddReference_bytes (db : BackupStoreRefCountDatabase) (ObjectID : Int)
    (hrw : db.mapDatabaseFile.readOnly = false)
    (hsize : 8 ≤ db.mapDatabaseFile.bytes.length) (hid : 1 ≤ ObjectID)
    (hmax : 4 * ObjectID + 8 < 2 ^ 63) :
    (AddReference db ObjectID).1 = .ok () ∧
    ∃ v, (AddReference db ObjectID).2.mapDatabaseFile.bytes =
      writeAt db.mapDatabaseFile.bytes (GetOffset ObjectID).toNat (htonl v) := by
  have hoff := GetOffset_eq ObjectID hid hmax
  have h0 : 0 ≤ GetOffset ObjectID := by omega
  have hlast := GetLastObjectIDUsed_eq db hsize
  obtain ⟨hb1, hr1⟩ := GetRefCount_snd db ObjectID
  by_cases hnew : ObjectID > GetLastObjectIDUsed db
  · obtain ⟨hok, hbytes, _⟩ := SetRefCount_spec db ObjectID 1 h0 hrw
    rw [AddReference_new db ObjectID hnew]
    exact ⟨hok, 1, hbytes⟩
  · have hfst : (GetRefCount db ObjectID).1 = .ok (ntohl
        ((db.mapDatabaseFile.bytes.drop (GetOffset ObjectID).toNat).take 4)) := by
      rw [GetRefCount_within db ObjectID h0 (by omega)]
    obtain ⟨hok, hbytes, _⟩ := SetRefCount_spec (GetRefCount db ObjectID).2 ObjectID
      ((ntohl ((db.mapDatabaseFile.bytes.drop (GetOffset ObjectID).toNat).take 4) + 1) % 2 ^ 32)
      h0 (by rw [hr1]; exact hrw)
    rw [AddReference_existing db ObjectID _ hnew hfst]
    rw [hb1] at hbytes
    exact ⟨hok, _, hbytes⟩

/-- A `RemoveReference(id)` that returns a value has written four bytes at the
offset of `id`, which is non-negative and lies within the file. -/
theorem RemoveReference_ok_bytes (db : BackupStoreRefCountDatabase) (ObjectID : Int)
    (r : Bool) (hrw : db.mapDatabaseFile.readOnly = false)
    (hok : (RemoveReference db ObjectID).1 = .ok r) :
    0 ≤ GetOffset ObjectID ∧
    GetOffset ObjectID + 4 ≤ (db.mapDatabaseFile.bytes.length : Int) ∧
    ∃ v, (RemoveReference db ObjectID).2.mapDatabaseFile.bytes =
      writeAt db.mapDatabaseFile.bytes (GetOffset ObjectID).toNat (htonl v) := by
  obtain ⟨hb1, hr1⟩ := GetRefCount_snd db ObjectID
  cases hget : (GetRefCount db ObjectID).1 with
  | error e =>
    rw [RemoveReference_error db ObjectID e hget] at hok
    exact absurd hok (by simp)
  | ok n =>
    by_cases hn : n = 0
    · subst hn
      rw [RemoveReference_zero db ObjectID hget] at hok
      exact absurd hok (by simp)
    · obtain ⟨h0, hin, _, _⟩ := GetRefCount_ok_within db ObjectID n hget
      refine ⟨h0, hin, ?_⟩
      rw [RemoveReference_positive db ObjectID n hget (by omega),
        SetRefCount_eq (GetRefCount db ObjectID).2 ObjectID _ h0 (by rw [hr1]; exact hrw)]
      rw [hb1]
      exact ⟨_, rfl⟩

/-- A write of four bytes at the slot of an `id ≥ 1` that ends below `2^63`
keeps the 8 bytes of the header. -/
theorem take_header_writeAt (bytes : List Byte) (ObjectID : Int) (v : Nat) (hid : 1 ≤ ObjectID)
    (hmax : 4 * ObjectID + 8 < 2 ^ 63) (hsize : 8 ≤ bytes.length) :
    (writeAt bytes (GetOffset ObjectID).toNat (htonl v)).take 8 = bytes.take 8 := by
  have hoff := GetOffset_eq ObjectID hid hmax
  have h := read_writeAt_before bytes (GetOffset ObjectID).toNat (htonl v) 0 8 (by omega)
    (by omega)
  rw [List.drop_zero, List.drop_zero] at h
  exact h

/-- The last object ID after one write of four bytes at the slot of an `id ≥ 1`
that ends below `2^63`. -/
theorem GetLastObjectIDUsed_writeAt (db db1 : BackupStoreRefCountDatabase) (ObjectID : Int)
    (v : Nat) (hsize : 8 ≤ db.mapDatabaseFile.bytes.length) (hid : 1 ≤ ObjectID)
    (hmax : 4 * ObjectID + 8 < 2 ^ 63)
    (hb : db1.mapDatabaseFile.bytes =
      writeAt db.mapDatabaseFile.bytes (GetOffset ObjectID).toNat (htonl v)) :
    GetLastObjectIDUsed db1 = max (GetLastObjectIDUsed db) ObjectID := by
  have hoff := GetOffset_eq ObjectID hid hmax
  have hlen := length_writeAt db.mapDatabaseFile.bytes (GetOffset ObjectID).toNat (htonl v)
  rw [length_htonl, ← hb] at hlen
  rw [GetLastObjectIDUsed_eq db hsize, GetLastObjectIDUsed_eq db1 (by omega)]
  omega

/-- No call shortens the file, so no call lowers the last object ID. -/
theorem Call.run_last_le (db : BackupStoreRefCountDatabase) (c : Call)
    (hsize : 8 ≤ db.mapDatabaseFile.bytes.length) :
    GetLastObjectIDUsed db ≤ GetLastObjectIDUsed (c.run db) := by
  obtain ⟨_, hb⟩ := Call.run_bytes db c
  rcases hb with hsame | ⟨_, v, hwrite⟩
  · rw [GetLastObjectIDUsed_eq db hsize,
      GetLastObjectIDUsed_eq (c.run db) (by rw [hsame]; exact hsize), hsame]
  · have hlen := length_writeAt db.mapDatabaseFile.bytes (GetOffset c.target).toNat (htonl v)
    rw [length_htonl, ← hwrite] at hlen
    rw [GetLastObjectIDUsed_eq db hsize, GetLastObjectIDUsed_eq (c.run db) (by omega)]
    omega

theorem OtherSlotsKept_of_same (db db1 : BackupStoreRefCountDatabase) (ObjectID : Int)
    (hb : db1.mapDatabaseFile.bytes = db.mapDatabaseFile.bytes) :
    OtherSlotsKept db db1 ObjectID := by
  refine ⟨by rw [hb], ?_⟩
  intro j _ _ _
  exact GetRefCount_congr db db1 j hb

theorem OtherSlotsKept_of_write (db db1 : BackupStoreRefCountDatabase) (ObjectID : Int)
    (v : Nat) (hsize : 8 ≤ db.mapDatabaseFile.bytes.length)
    (hlt : (db.mapDatabaseFile.bytes.length : Int) < 2 ^ 63) (hid : 1 ≤ ObjectID)
    (hmax : 4 * ObjectID + 8 < 2 ^ 63)
    (hb : db1.mapDatabaseFile.bytes =
      writeAt db.mapDatabaseFile.bytes (GetOffset ObjectID).toNat (htonl v)) :
    OtherSlotsKept db db1 ObjectID := by
  refine ⟨by rw [hb]; exact take_header_writeAt _ ObjectID v hid hmax hsize, ?_⟩
  intro j hj hle hne
  have hlast := GetLastObjectIDUsed_eq db hsize
  have hoj := GetOffset_eq j hj (by omega)
  rw [GetRefCount_writeAt_other db1 _ ObjectID j v hid hmax hj hne (by omega) (by omega) hb,
    GetRefCount_within db j (by omega) (by omega)]

/-- Every call for an `id ≥ 1` whose slot ends below `2^63`, on a table with a
file of at least 8 and less than `2^63` bytes, keeps the header and every other
slot, whether it returns or throws. -/
theorem Call.run_kept (db : BackupStoreRefCountDatabase) (c : Call)
    (hsize : 8 ≤ db.mapDatabaseFile.bytes.length)
    (hlt : (db.mapDatabaseFile.bytes.length : Int) < 2 ^ 63) (hid : 1 ≤ c.target)
    (hmax : 4 * c.target + 8 < 2 ^ 63) :
    OtherSlotsKept db (c.run db) c.target := by
  obtain ⟨_, hb⟩ := Call.run_bytes db c
  rcases hb with hsame | ⟨_, v, hwrite⟩
  · exact OtherSlotsKept_of_same db _ _ hsame
  · exact OtherSlotsKept_of_write db _ _ v hsize hlt hid hmax hwrite

/-- After `Create` has succeeded the file is the new header followed by
whatever the file held beyond its first 8 bytes. -/
theorem Create_ok_file (accountID : Int) (AllowOverwrite : Bool) (file : Option (List Byte))
    (h : (Create accountID AllowOverwrite file).1 = .ok ()) :
    (Create accountID AllowOverwrite file).2 =
      some (htonl REFCOUNT_MAGIC_VALUE ++ htonl (toUInt32 accountID) ++
        (file.getD []).drop 8) := by
  rw [Create_eq] at h ⊢
  by_cases hex : (file.isSome && !AllowOverwrite) = true
  · rw [if_pos hex] at h
    exact absurd h (by simp)
  · rw [if_neg hex]
    simp only
    have h1 := take_writeAt_zero (file.getD [])
      (htonl REFCOUNT_MAGIC_VALUE ++ htonl (toUInt32 accountID))
    have h2 := drop_writeAt_zero (file.getD [])
      (htonl REFCOUNT_MAGIC_VALUE ++ htonl (toUInt32 accountID))
    have h3 := List.take_append_drop
      (htonl REFCOUNT_MAGIC_VALUE ++ htonl (toUInt32 accountID)).length
      (writeAt (file.getD []) 0 (htonl REFCOUNT_MAGIC_VALUE ++ htonl (toUInt32 accountID)))
    rw [h1, h2] at h3
    rw [← h3]
    rfl

/-- A successful read does not confine the ID to the table: on the 12-byte
table whose slot 1 holds 7 the ID `2^62 + 1` is beyond the last object ID 1,
yet its offset wraps to 8 and `GetRefCount` returns 7; `AddReference` takes the
branch of a new object for it and writes 1, so the count read afterwards is 1
and not 8. -/
theorem AddReference_wrapped_id :
    (2 ^ 62 + 1 : Int) > GetLastObjectIDUsed
      { mAccountID := 1, mReadOnly := false,
        mapDatabaseFile := { bytes := [82, 101, 102, 67, 0, 0, 0, 1, 0, 0, 0, 7], pos := 8,
                             readOnly := false } } ∧
    (GetRefCount
      { mAccountID := 1, mReadOnly := false,
        mapDatabaseFile := { bytes := [82, 101, 102, 67, 0, 0, 0, 1, 0, 0, 0, 7], pos := 8,
                             readOnly := false } } (2 ^ 62 + 1)).1 = .ok 7 ∧
    (GetRefCount (AddReference
      { mAccountID := 1, mReadOnly := false,
        mapDatabaseFile := { bytes := [82, 101, 102, 67, 0, 0, 0, 1, 0, 0, 0, 7], pos := 8,
                             readOnly := false } } (2 ^ 62 + 1)).2 (2 ^ 62 + 1)).1 = .ok 1 := by
  decide

end BackupStoreRefCountDatabase

/-! ## Theorems: BackupStoreRefCountDatabase -/

open BackupStoreRefCountDatabase

/-- C3 (as stated) fails for an object ID whose slot offset does not fit the
signed 64-bit stream position: on a header-only table `SetRefCount(2^61, 5)`
computes the offset `2^63 + 4`, which wraps to a negative position; the seek is
refused, nothing is written, and `GetRefCount(2^61)` does not return 5. -/
theorem C3_counterexample_offset_wraps_negative :
    (SetRefCount
      { mAccountID := 1, mReadOnly := false,
        mapDatabaseFile := { bytes := [82, 101, 102, 67, 0, 0, 0, 1], pos := 8,
                             readOnly := false } } (2 ^ 61) 5).1 = .error .OSFileError ∧
    (GetRefCount (SetRefCount
      { mAccountID := 1, mReadOnly := false,
        mapDatabaseFile := { bytes := [82, 101, 102, 67, 0, 0, 0, 1], pos := 8,
                             readOnly := false } } (2 ^ 61) 5).2 (2 ^ 61)).1 ≠ .ok 5 := by
  decide

/-- C3 (amended): on a table opened read-write with a file of at least 8 bytes,
for every `id ≥ 1` whose slot ends below `2^63` (`4 * id + 8 < 2^63`) and every
`v < 2^32`, `SetRefCount(id, v)` raises no error and a following
`GetRefCount(id)` returns exactly `v`; nothing is assumed about whether `id`
was within the table before. -/
theorem C3_set_then_get_returns_value (db : BackupStoreRefCountDatabase) (ObjectID : Int)
    (v : Nat) (hsize : 8 ≤ db.mapDatabaseFile.bytes.length)
    (hrw : db.mapDatabaseFile.readOnly = false) (hid : 1 ≤ ObjectID)
    (hmax : 4 * ObjectID + 8 < 2 ^ 63) (hv : v < 2 ^ 32) :
    (SetRefCount db ObjectID v).1 = .ok () ∧
    (GetRefCount (SetRefCount db ObjectID v).2 ObjectID).1 = .ok v := by
  have _ := hsize
  have h0 : 0 ≤ GetOffset ObjectID := by rw [GetOffset_eq ObjectID hid hmax]; omega
  obtain ⟨hok, hbytes, _⟩ := SetRefCount_spec db ObjectID v h0 hrw
  refine ⟨hok, ?_⟩
  rw [GetRefCount_writeAt_same _ _ ObjectID v h0 hbytes, Nat.mod_eq_of_lt hv]

/-- C3 (amended) at a concrete table: a header-only file, `id = 3`, `v = 258`. -/
theorem C3_set_then_get_returns_value_witness :
    (SetRefCount
        { mAccountID := 1, mReadOnly := false,
          mapDatabaseFile := { bytes := [82, 101, 102, 67, 0, 0, 0, 1], pos := 8,
                               readOnly := false } } 3 258).1 = .ok () ∧
    (GetRefCount (SetRefCount
        { mAccountID := 1, mReadOnly := false,
          mapDatabaseFile := { bytes := [82, 101, 102, 67, 0, 0, 0, 1], pos := 8,
                               readOnly := false } } 3 258).2 3).1 = .ok 258 :=
  C3_set_then_get_returns_value _ 3 258 (by decide) rfl (by decide) (by decide) (by decide)

/-- C4 (as stated) fails: after `AddReference(5)` on a freshly created and
loaded table, `GetRefCount(1)` does not fail with the unknown-object error; it
returns 0. -/
theorem C4_counterexample_lower_slot_reads_zero :
    Load 1 false (Create 1 false none).2 =
      .ok { mAccountID := 1, mReadOnly := false,
            mapDatabaseFile := { bytes := [82, 101, 102, 67, 0, 0, 0, 1], pos := 8,
                                 readOnly := false } } ∧
    (GetRefCount (AddReference
        { mAccountID := 1, mReadOnly := false,
          mapDatabaseFile := { bytes := [82, 101, 102, 67, 0, 0, 0, 1], pos := 8,
                               readOnly := false } } 5).2 1).1 = .ok 0 ∧
    (GetRefCount (AddReference
        { mAccountID := 1, mReadOnly := false,
          mapDatabaseFile := { bytes := [82, 101, 102, 67, 0, 0, 0, 1], pos := 8,
                               readOnly := false } } 5).2 1).1
      ≠ .error .UnknownObjectRefCountRequested := by
  decide

/-- C4 (amended): after `AddReference(5)` on a freshly created and loaded
table, `AddReference` raised no error, `GetLastObjectIDUsed()` is 5, each of
`GetRefCount(1)` .. `GetRefCount(4)` succeeds and returns 0, and
`GetRefCount(5)` returns 1. -/
theorem C4_add_reference_5_on_empty_table (accountID : Int)
    (db : BackupStoreRefCountDatabase)
    (hload : Load accountID false (Create accountID false none).2 = .ok db) :
    (AddReference db 5).1 = .ok () ∧
    GetLastObjectIDUsed (AddReference db 5).2 = 5 ∧
    (∀ j : Int, 1 ≤ j → j ≤ 4 → (GetRefCount (AddReference db 5).2 j).1 = .ok 0) ∧
    (GetRefCount (AddReference db 5).2 5).1 = .ok 1 := by
  obtain ⟨hlen, hrw⟩ := Load_Create_fresh accountID false db hload
  have hlast : GetLastObjectIDUsed db = 0 := by
    rw [GetLastObjectIDUsed_eq db (by omega), hlen]
    rfl
  have hnew : AddReference db 5 = SetRefCount db 5 1 :=
    AddReference_new db 5 (by rw [hlast]; decide)
  have h5 : GetOffset 5 = 24 := by rw [GetOffset_eq 5 (by decide) (by decide)]; rfl
  obtain ⟨hok, hbytes, hrw2⟩ := SetRefCount_spec db 5 1 (by rw [h5]; decide) hrw
  rw [hnew]
  refine ⟨hok, ?_, ?_, ?_⟩
  · have hl := length_writeAt db.mapDatabaseFile.bytes (GetOffset 5).toNat (htonl 1)
    rw [length_htonl, hlen] at hl
    rw [GetLastObjectIDUsed_eq _ (by rw [hbytes]; omega), hbytes]
    omega
  · intro j hj1 hj4
    exact GetRefCount_writeAt_gap _ _ 5 j 1 (by decide) hj1 (by omega) (by omega) hbytes
  · exact GetRefCount_writeAt_same _ _ 5 1 (by rw [h5]; decide) hbytes

/-- C4 (amended) at account 1. -/
theorem C4_add_reference_5_on_empty_table_witness :
    Load 1 false (Create 1 false none).2 =
      .ok { mAccountID := 1, mReadOnly := false,
            mapDatabaseFile := { bytes := [82, 101, 102, 67, 0, 0, 0, 1], pos := 8,
                                 readOnly := false } } ∧
    (GetRefCount (AddReference
        { mAccountID := 1, mReadOnly := false,
          mapDatabaseFile := { bytes := [82, 101, 102, 67, 0, 0, 0, 1], pos := 8,
                               readOnly := false } } 5).2 5).1 = .ok 1 :=
  ⟨by decide, (C4_add_reference_5_on_empty_table 1 _ (by decide)).2.2.2⟩

/-- C5 (as stated) fails.  On the fresh table of account 1 the one call
`SetRefCount(2^62 + 2, 9)` has the offset `2^64 + 12`, which wraps to 12, the
slot of ID 2: afterwards the last object ID is 2 and `GetRefCount(2)` returns 9
though 2 was never a target.  And when `Create` overwrites an existing table
that holds count 7 in slot 1, the slot is kept: with no call made at all
`GetRefCount(1)` returns 7. -/
theorem C5_counterexample_untouched_slot_not_zero :
    Load 1 false (Create 1 false none).2 =
      .ok { mAccountID := 1, mReadOnly := false,
            mapDatabaseFile := { bytes := [82, 101, 102, 67, 0, 0, 0, 1], pos := 8,
                                 readOnly := false } } ∧
    GetLastObjectIDUsed (runCalls
      { mAccountID := 1, mReadOnly := false,
        mapDatabaseFile := { bytes := [82, 101, 102, 67, 0, 0, 0, 1], pos := 8,
                             readOnly := false } } [Call.set (2 ^ 62 + 2) 9]) = 2 ∧
    (Call.set (2 ^ 62 + 2) 9).target ≠ 2 ∧
    (GetRefCount (runCalls
      { mAccountID := 1, mReadOnly := false,
        mapDatabaseFile := { bytes := [82, 101, 102, 67, 0, 0, 0, 1], pos := 8,
                             readOnly := false } } [Call.set (2 ^ 62 + 2) 9]) 2).1 = .ok 9 ∧
    Load 1 false (Create 1 true (some [82, 101, 102, 67, 0, 0, 0, 1, 0, 0, 0, 7])).2 =
      .ok { mAccountID := 1, mReadOnly := false,
            mapDatabaseFile := { bytes := [82, 101, 102, 67, 0, 0, 0, 1, 0, 0, 0, 7], pos := 8,
                                 readOnly := false } } ∧
    (GetRefCount (runCalls
      { mAccountID := 1, mReadOnly := false,
        mapDatabaseFile := { bytes := [82, 101, 102, 67, 0, 0, 0, 1, 0, 0, 0, 7], pos := 8,
                             readOnly := false } } []) 1).1 = .ok 7 := by
  decide

/-- C5 (amended): with a stream that zero-fills the gap on sparse extension, in
every table state reached from `Create` on an absent file and a read-write
`Load` by a finite sequence of `SetRefCount`, `AddReference` and
`RemoveReference` calls with ids `≥ 1` whose slots end below `2^63`
(`4 * id + 8 < 2^63`), whether the calls return or throw, every `j` with
`1 ≤ j ≤ GetLastObjectIDUsed()` that was the target of none of the calls has
`GetRefCount(j) = 0`.  In particular an `AddReference(id)` made in such a state
with such an `id` greater than the last object ID `n` raises no error and
leaves `GetRefCount(id) = 1` and `GetRefCount(j) = 0` for every `n < j < id`. -/
theorem C5_untouched_slots_read_zero (accountID : Int) (AllowOverwrite : Bool)
    (db0 : BackupStoreRefCountDatabase) (calls : List Call)
    (hload : Load accountID false (Create accountID AllowOverwrite none).2 = .ok db0)
    (hids : ∀ c ∈ calls, 1 ≤ c.target ∧ 4 * c.target + 8 < 2 ^ 63) :
    (∀ j : Int, 1 ≤ j → j ≤ GetLastObjectIDUsed (runCalls db0 calls) →
      (∀ c ∈ calls, c.target ≠ j) → (GetRefCount (runCalls db0 calls) j).1 = .ok 0) ∧
    (∀ ObjectID : Int, GetLastObjectIDUsed (runCalls db0 calls) < ObjectID →
      4 * ObjectID + 8 < 2 ^ 63 →
      (AddReference (runCalls db0 calls) ObjectID).1 = .ok () ∧
      (GetRefCount (AddReference (runCalls db0 calls) ObjectID).2 ObjectID).1 = .ok 1 ∧
      ∀ j : Int, GetLastObjectIDUsed (runCalls db0 calls) < j → j < ObjectID →
        (GetRefCount (AddReference (runCalls db0 calls) ObjectID).2 j).1 = .ok 0) := by
  obtain ⟨hlen, hrw⟩ := Load_Create_fresh accountID AllowOverwrite db0 hload
  have hlast0 := GetLastObjectIDUsed_eq db0 (by omega)
  obtain ⟨hr, hs, _, ha, hz⟩ := runCalls_invariant calls db0 (fun _ => True) hids hrw
    (by omega) (by omega) (by omega) (by intro j hj hle _; omega)
  constructor
  · intro j hj hle hU
    exact hz j hj hle ⟨trivial, hU⟩
  · intro ObjectID hnew hmax
    have hlast := GetLastObjectIDUsed_eq (runCalls db0 calls) hs
    have hoff := GetOffset_eq ObjectID (by omega) hmax
    have h0 : 0 ≤ GetOffset ObjectID := by omega
    obtain ⟨hok, hbytes, _⟩ := SetRefCount_spec (runCalls db0 calls) ObjectID 1 h0 hr
    rw [AddReference_new _ ObjectID hnew]
    refine ⟨hok, GetRefCount_writeAt_same _ _ ObjectID 1 h0 hbytes, ?_⟩
    intro j hlt hjlt
    exact GetRefCount_writeAt_gap _ _ ObjectID j 1 hmax (by omega) hjlt (by omega) hbytes

/-- C5 (amended) at a concrete run: `SetRefCount(4, 9)` then `AddReference(2)`
on the fresh table of account 1; slot 3 was never a target and reads 0. -/
theorem C5_untouched_slots_read_zero_witness :
    (GetRefCount (runCalls
        { mAccountID := 1, mReadOnly := false,
          mapDatabaseFile := { bytes := [82, 101, 102, 67, 0, 0, 0, 1], pos := 8,
                               readOnly := false } }
        [Call.set 4 9, Call.add 2]) 3).1 = .ok 0 :=
  (C5_untouched_slots_read_zero 1 false
      { mAccountID := 1, mReadOnly := false,
        mapDatabaseFile := { bytes := [82, 101, 102, 67, 0, 0, 0, 1], pos := 8,
                             readOnly := false } }
      [Call.set 4 9, Call.add 2] (by decide) (by decide)).1 3 (by decide) (by decide)
    (by decide)

/-- C6 (as stated) fails for an object ID whose slot offset does not fit the
signed 64-bit stream position: on the 12-byte table whose slot 1 holds 7 the ID
`2^62 + 1` is greater than the last object ID 1, yet its offset `2^64 + 8`
wraps to 8 and `GetRefCount(2^62 + 1)` returns 7 instead of failing with the
unknown-object error. -/
theorem C6_counterexample_wrapped_id_reads_slot_1 :
    (2 ^ 62 + 1 : Int) > GetLastObjectIDUsed
      { mAccountID := 1, mReadOnly := false,
        mapDatabaseFile := { bytes := [82, 101, 102, 67, 0, 0, 0, 1, 0, 0, 0, 7], pos := 8,
                             readOnly := false } } ∧
    (GetRefCount
      { mAccountID := 1, mReadOnly := false,
        mapDatabaseFile := { bytes := [82, 101, 102, 67, 0, 0, 0, 1, 0, 0, 0, 7], pos := 8,
                             readOnly := false } } (2 ^ 62 + 1)).1 = .ok 7 ∧
    (GetRefCount
      { mAccountID := 1, mReadOnly := false,
        mapDatabaseFile := { bytes := [82, 101, 102, 67, 0, 0, 0, 1, 0, 0, 0, 7], pos := 8,
                             readOnly := false } } (2 ^ 62 + 1)).1
      ≠ .error .UnknownObjectRefCountRequested := by
  decide

/-- C6 (amended): on a table whose file has at least 8 bytes (of any length,
also one that is not a whole number of slots past the header) and for every
`id ≥ 1` whose slot ends below `2^63` (`4 * id + 8 < 2^63`):
`GetLastObjectIDUsed()` is `floor((size - 8) / 4)`; `GetRefCount(id)` fails
with the unknown-object error exactly when `id > GetLastObjectIDUsed()`; and
for every other `id` the slot at offset `8 + 4 * (id - 1)` has its 4 bytes
within the file and the call returns their big-endian value. -/
theorem C6_unknown_object_iff_beyond_last (db : BackupStoreRefCountDatabase) (ObjectID : Int)
    (hsize : 8 ≤ db.mapDatabaseFile.bytes.length) (hid : 1 ≤ ObjectID)
    (hmax : 4 * ObjectID + 8 < 2 ^ 63) :
    GetLastObjectIDUsed db = (((db.mapDatabaseFile.bytes.length - 8) / 4 : Nat) : Int) ∧
    ((GetRefCount db ObjectID).1 = .error .UnknownObjectRefCountRequested ↔
      ObjectID > GetLastObjectIDUsed db) ∧
    (ObjectID ≤ GetLastObjectIDUsed db →
      ((db.mapDatabaseFile.bytes.drop (8 + 4 * (ObjectID.toNat - 1))).take 4).length = 4 ∧
      (GetRefCount db ObjectID).1 =
        .ok (ntohl ((db.mapDatabaseFile.bytes.drop (8 + 4 * (ObjectID.toNat - 1))).take 4))) := by
  have hlast := GetLastObjectIDUsed_eq db hsize
  have hoff := GetOffset_eq ObjectID hid hmax
  have hfst := GetRefCount_fst db ObjectID (by omega) (by omega)
  refine ⟨hlast, ?_, ?_⟩
  · rw [hfst, hlast]
    constructor
    · intro h
      by_contra hle
      rw [if_neg (by omega)] at h
      exact absurd h (by simp)
    · intro h
      rw [if_pos (by omega)]
  · intro hle
    rw [hlast] at hle
    rw [hfst, if_neg (by omega)]
    have e : (GetOffset ObjectID).toNat = 8 + 4 * (ObjectID.toNat - 1) := by omega
    rw [e]
    refine ⟨?_, rfl⟩
    rw [List.length_take, List.length_drop]
    omega

/-- C6 (amended) at a concrete table: a 9-byte file (one stray byte after the
header) and `id = 1`. -/
theorem C6_unknown_object_iff_beyond_last_witness :
    ((GetRefCount
        { mAccountID := 1, mReadOnly := true,
          mapDatabaseFile := { bytes := [82, 101, 102, 67, 0, 0, 0, 1, 9], pos := 8,
                               readOnly := true } } 1).1
        = .error .UnknownObjectRefCountRequested ↔
      (1 : Int) > GetLastObjectIDUsed
        { mAccountID := 1, mReadOnly := true,
          mapDatabaseFile := { bytes := [82, 101, 102, 67, 0, 0, 0, 1, 9], pos := 8,
                               readOnly := true } }) :=
  (C6_unknown_object_iff_beyond_last _ 1 (by decide) (by decide) (by decide)).2.1

/-- C7 (as stated) fails for an object ID whose slot offset does not fit the
signed 64-bit stream position: on a header-only table the ID `2^61` is beyond
the table, but the offset `2^63 + 4` wraps to a negative position, the seek of
`SetRefCount` is refused, `AddReference(2^61)` ends in that error and
`GetRefCount(2^61)` is not 1 afterwards. -/
theorem C7_counterexample_add_reference_seek_refused :
    (2 ^ 61 : Int) > GetLastObjectIDUsed
      { mAccountID := 1, mReadOnly := false,
        mapDatabaseFile := { bytes := [82, 101, 102, 67, 0, 0, 0, 1], pos := 8,
                             readOnly := false } } ∧
    (AddReference
      { mAccountID := 1, mReadOnly := false,
        mapDatabaseFile := { bytes := [82, 101, 102, 67, 0, 0, 0, 1], pos := 8,
                             readOnly := false } } (2 ^ 61)).1 = .error .OSFileError ∧
    (GetRefCount (AddReference
      { mAccountID := 1, mReadOnly := false,
        mapDatabaseFile := { bytes := [82, 101, 102, 67, 0, 0, 0, 1], pos := 8,
                             readOnly := false } } (2 ^ 61)).2 (2 ^ 61)).1 ≠ .ok 1 := by
  decide

/-- C7 (amended): on a table opened read-write with a file of at least 8 bytes
and for every `id ≥ 1` whose slot ends below `2^63` (`4 * id + 8 < 2^63`): if
`id > GetLastObjectIDUsed()`, `AddReference(id)` is exactly the write
`SetRefCount(id, 1)` (no read is made), raises no error, and leaves
`GetRefCount(id) = 1`; otherwise, with `c` the count read before the call and
`c < 2^32 - 1`, it raises no error and leaves `GetRefCount(id) = c + 1`. -/
theorem C7_add_reference_new_or_increment (db : BackupStoreRefCountDatabase) (ObjectID : Int)
    (hsize : 8 ≤ db.mapDatabaseFile.bytes.length)
    (hrw : db.mapDatabaseFile.readOnly = false) (hid : 1 ≤ ObjectID)
    (hmax : 4 * ObjectID + 8 < 2 ^ 63) :
    (ObjectID > GetLastObjectIDUsed db →
      AddReference db ObjectID = SetRefCount db ObjectID 1 ∧
      (AddReference db ObjectID).1 = .ok () ∧
      (GetRefCount (AddReference db ObjectID).2 ObjectID).1 = .ok 1) ∧
    (ObjectID ≤ GetLastObjectIDUsed db →
      ∃ c, (GetRefCount db ObjectID).1 = .ok c ∧
        (c < 2 ^ 32 - 1 →
          (AddReference db ObjectID).1 = .ok () ∧
          (GetRefCount (AddReference db ObjectID).2 ObjectID).1 = .ok (c + 1))) := by
  have hoff := GetOffset_eq ObjectID hid hmax
  have h0 : 0 ≤ GetOffset ObjectID := by omega
  constructor
  · intro hnew
    have hadd := AddReference_new db ObjectID hnew
    obtain ⟨hok, hbytes, _⟩ := SetRefCount_spec db ObjectID 1 h0 hrw
    rw [hadd]
    exact ⟨rfl, hok, GetRefCount_writeAt_same _ _ ObjectID 1 h0 hbytes⟩
  · intro hle
    have hlast := GetLastObjectIDUsed_eq db hsize
    have hfst : (GetRefCount db ObjectID).1 = .ok (ntohl
        ((db.mapDatabaseFile.bytes.drop (GetOffset ObjectID).toNat).take 4)) := by
      rw [GetRefCount_within db ObjectID h0 (by omega)]
    refine ⟨_, hfst, ?_⟩
    intro hc
    obtain ⟨hok, _, _, hget⟩ := AddReference_spec db ObjectID _ hrw hsize (Or.inr ⟨hle, hfst⟩)
    refine ⟨hok, ?_⟩
    rw [hget, Nat.mod_eq_of_lt (by omega)]

/-- C7 (amended) at a concrete table with one slot: `AddReference(3)` on the
slot beyond the table leaves `GetRefCount(3) = 1`. -/
theorem C7_add_reference_new_or_increment_witness :
    (GetRefCount (AddReference
        { mAccountID := 1, mReadOnly := false,
          mapDatabaseFile := { bytes := [82, 101, 102, 67, 0, 0, 0, 1, 0, 0, 0, 7], pos := 8,
                               readOnly := false } } 3).2 3).1 = .ok 1 :=
  ((C7_add_reference_new_or_increment
      { mAccountID := 1, mReadOnly := false,
        mapDatabaseFile := { bytes := [82, 101, 102, 67, 0, 0, 0, 1, 0, 0, 0, 7], pos := 8,
                             readOnly := false } } 3 (by decide) rfl (by decide) (by decide)).1
    (by decide)).2.2

/-- C8 (as stated) fails for an object ID whose slot offset does not fit the
signed 64-bit stream position: on a header-only table the ID `2^62 + 1` is
beyond the table and its offset `2^64 + 8` wraps to 8; after the first
`AddReference` the last object ID is 1, the ID still counts as new, and the
second `AddReference` writes 1 again: after `N = 2` calls `GetRefCount` returns
1, not 2. -/
theorem C8_counterexample_wrapped_id_counts_once :
    (2 ^ 62 + 1 : Int) > GetLastObjectIDUsed
      { mAccountID := 1, mReadOnly := false,
        mapDatabaseFile := { bytes := [82, 101, 102, 67, 0, 0, 0, 1], pos := 8,
                             readOnly := false } } ∧
    (AddReferenceTimes
      { mAccountID := 1, mReadOnly := false,
        mapDatabaseFile := { bytes := [82, 101, 102, 67, 0, 0, 0, 1], pos := 8,
                             readOnly := false } } (2 ^ 62 + 1) 2).1 = .ok () ∧
    (GetRefCount (AddReferenceTimes
      { mAccountID := 1, mReadOnly := false,
        mapDatabaseFile := { bytes := [82, 101, 102, 67, 0, 0, 0, 1], pos := 8,
                             readOnly := false } } (2 ^ 62 + 1) 2).2 (2 ^ 62 + 1)).1 = .ok 1 := by
  decide

/-- C8 (amended): on a table opened read-write with a file of at least 8 bytes,
for every `id ≥ 1` whose slot ends below `2^63` (`4 * id + 8 < 2^63`) that is
beyond the table or holds count 0 and every `N` with `1 ≤ N < 2^32`: the `N`
calls of `AddReference(id)` raise no error and leave `GetRefCount(id) = N`;
then, for every `k` with `1 ≤ k ≤ N`, the first `k` calls of
`RemoveReference(id)` all return, the `i`-th of them returning `true` exactly
when `i < N`, and they leave `GetRefCount(id) = N - k`; so the last one returns
`false` and leaves a readable count 0. -/
theorem C8_add_n_then_remove_n (db : BackupStoreRefCountDatabase) (ObjectID : Int) (N : Nat)
    (hrw : db.mapDatabaseFile.readOnly = false)
    (hsize : 8 ≤ db.mapDatabaseFile.bytes.length) (hid : 1 ≤ ObjectID)
    (hmax : 4 * ObjectID + 8 < 2 ^ 63)
    (hN1 : 1 ≤ N) (hN : N < 2 ^ 32)
    (hc : ObjectID > GetLastObjectIDUsed db ∨ (GetRefCount db ObjectID).1 = .ok 0) :
    (AddReferenceTimes db ObjectID N).1 = .ok () ∧
    (GetRefCount (AddReferenceTimes db ObjectID N).2 ObjectID).1 = .ok N ∧
    ∀ k : Nat, 1 ≤ k → k ≤ N →
      (RemoveReferenceTimes (AddReferenceTimes db ObjectID N).2 ObjectID k).1 =
        .ok ((List.range k).map (fun i => decide (i + 1 < N))) ∧
      (GetRefCount
        (RemoveReferenceTimes (AddReferenceTimes db ObjectID N).2 ObjectID k).2 ObjectID).1 =
        .ok (N - k) := by
  obtain ⟨n, rfl⟩ : ∃ n, N = n + 1 := ⟨N - 1, by omega⟩
  obtain ⟨hok, hr, _, hget⟩ :=
    AddReferenceTimes_spec db ObjectID hrw hsize hid hmax hc n (by omega)
  refine ⟨hok, hget, ?_⟩
  intro k _ hk
  obtain ⟨h1, _, h3⟩ := RemoveReferenceTimes_spec _ ObjectID (n + 1) hr hget k hk
  exact ⟨h1, h3⟩

/-- C8 (amended) at `id = 7`, `N = 3` on a header-only table: count 3 after the
three additions, then the removals return `true`, `true`, `false` and leave
0. -/
theorem C8_add_n_then_remove_n_witness :
    (GetRefCount (AddReferenceTimes
        { mAccountID := 1, mReadOnly := false,
          mapDatabaseFile := { bytes := [82, 101, 102, 67, 0, 0, 0, 1], pos := 8,
                               readOnly := false } } 7 3).2 7).1 = .ok 3 ∧
    (RemoveReferenceTimes (AddReferenceTimes
        { mAccountID := 1, mReadOnly := false,
          mapDatabaseFile := { bytes := [82, 101, 102, 67, 0, 0, 0, 1], pos := 8,
                               readOnly := false } } 7 3).2 7 3).1 = .ok [true, true, false] ∧
    (GetRefCount (RemoveReferenceTimes (AddReferenceTimes
        { mAccountID := 1, mReadOnly := false,
          mapDatabaseFile := { bytes := [82, 101, 102, 67, 0, 0, 0, 1], pos := 8,
                               readOnly := false } } 7 3).2 7 3).2 7).1 = .ok 0 :=
  have h := C8_add_n_then_remove_n
    { mAccountID := 1, mReadOnly := false,
      mapDatabaseFile := { bytes := [82, 101, 102, 67, 0, 0, 0, 1], pos := 8,
                           readOnly := false } } 7 3 rfl (by decide) (by decide) (by decide)
    (by decide) (by decide) (Or.inl (by decide))
  ⟨h.2.1, (h.2.2 3 (by decide) (by decide)).1, (h.2.2 3 (by decide) (by decide)).2⟩

/-- C9: on a table opened read-write with a file of at least 8 bytes, for every
`id` with `1 ≤ id ≤ GetLastObjectIDUsed()` whose stored count `c` is at least
1: `RemoveReference(id)` returns `true` if and only if `c - 1 > 0`, and leaves
`GetRefCount(id) = c - 1`. -/
theorem C9_remove_reference_decrements (db : BackupStoreRefCountDatabase) (ObjectID : Int)
    (c : Nat) (hsize : 8 ≤ db.mapDatabaseFile.bytes.length)
    (hrw : db.mapDatabaseFile.readOnly = false) (hid : 1 ≤ ObjectID)
    (hle : ObjectID ≤ GetLastObjectIDUsed db)
    (hc : (GetRefCount db ObjectID).1 = .ok c) (hpos : 1 ≤ c) :
    (RemoveReference db ObjectID).1 = .ok (decide (c - 1 > 0)) ∧
    (GetRefCount (RemoveReference db ObjectID).2 ObjectID).1 = .ok (c - 1) := by
  have _ := hsize
  have _ := hid
  have _ := hle
  obtain ⟨hok, _, _, hget⟩ := RemoveReference_spec db ObjectID c hrw hc hpos
  exact ⟨hok, hget⟩

/-- C9 at a concrete table: slot 1 holds 2; `RemoveReference(1)` returns `true`
and leaves 1. -/
theorem C9_remove_reference_decrements_witness :
    (RemoveReference
        { mAccountID := 1, mReadOnly := false,
          mapDatabaseFile := { bytes := [82, 101, 102, 67, 0, 0, 0, 1, 0, 0, 0, 2], pos := 8,
                               readOnly := false } } 1).1 = .ok (decide (2 - 1 > 0)) ∧
    (GetRefCount (RemoveReference
        { mAccountID := 1, mReadOnly := false,
          mapDatabaseFile := { bytes := [82, 101, 102, 67, 0, 0, 0, 1, 0, 0, 0, 2], pos := 8,
                               readOnly := false } } 1).2 1).1 = .ok (2 - 1) :=
  C9_remove_reference_decrements _ 1 2 (by decide) rfl (by decide) (by decide) rfl
    (by decide)

/-- C10: on every table (read-only or read-write) and for every `id ≥ 1` whose
stored count is 0, that is, `GetRefCount(id)` returns 0, as it does for every
`id ≤ GetLastObjectIDUsed()` whose slot holds 0: `RemoveReference(id)` returns no value, it ends
in the failed assertion, every byte of the file is as before the call, and the
stored count is still 0. -/
theorem C10_remove_reference_at_zero_asserts (db : BackupStoreRefCountDatabase)
    (ObjectID : Int) (hid : 1 ≤ ObjectID)
    (hc : (GetRefCount db ObjectID).1 = .ok 0) :
    (RemoveReference db ObjectID).1 = .error .AssertFailed ∧
    (RemoveReference db ObjectID).2.mapDatabaseFile.bytes = db.mapDatabaseFile.bytes ∧
    (GetRefCount (RemoveReference db ObjectID).2 ObjectID).1 = .ok 0 := by
  have _ := hid
  obtain ⟨hb1, _⟩ := GetRefCount_snd db ObjectID
  rw [RemoveReference_zero db ObjectID hc]
  refine ⟨rfl, hb1, ?_⟩
  rw [GetRefCount_congr db _ ObjectID hb1]
  exact hc

/-- C10 at a concrete read-only table: slot 1 holds 0. -/
theorem C10_remove_reference_at_zero_asserts_witness :
    (RemoveReference
        { mAccountID := 1, mReadOnly := true,
          mapDatabaseFile := { bytes := [82, 101, 102, 67, 0, 0, 0, 1, 0, 0, 0, 0], pos := 8,
                               readOnly := true } } 1).1 = .error .AssertFailed :=
  (C10_remove_reference_at_zero_asserts
    { mAccountID := 1, mReadOnly := true,
      mapDatabaseFile := { bytes := [82, 101, 102, 67, 0, 0, 0, 1, 0, 0, 0, 0], pos := 8,
                           readOnly := true } } 1 (by decide) rfl).1

/-- C11 (as stated) fails: on a header-only table `RemoveReference(1)`, an
identifier beyond the table, does not end in the assertion; it ends in the
typed unknown-object error raised by `GetRefCount`.  And for an ID beyond the
table whose slot offset does not fit the signed 64-bit stream position the call
may return: on the 12-byte table whose slot 1 holds 7, `RemoveReference(2^62 +
1)` has the offset `2^64 + 8`, which wraps to 8; it returns `true` and changes
the file, slot 1 now holding 6. -/
theorem C11_counterexample_unknown_object_not_assertion :
    (1 : Int) > GetLastObjectIDUsed
      { mAccountID := 1, mReadOnly := false,
        mapDatabaseFile := { bytes := [82, 101, 102, 67, 0, 0, 0, 1], pos := 8,
                             readOnly := false } } ∧
    (RemoveReference
      { mAccountID := 1, mReadOnly := false,
        mapDatabaseFile := { bytes := [82, 101, 102, 67, 0, 0, 0, 1], pos := 8,
                             readOnly := false } } 1).1
      = .error .UnknownObjectRefCountRequested ∧
    (RemoveReference
      { mAccountID := 1, mReadOnly := false,
        mapDatabaseFile := { bytes := [82, 101, 102, 67, 0, 0, 0, 1], pos := 8,
                             readOnly := false } } 1).1
      ≠ .error .AssertFailed ∧
    (2 ^ 62 + 1 : Int) > GetLastObjectIDUsed
      { mAccountID := 1, mReadOnly := false,
        mapDatabaseFile := { bytes := [82, 101, 102, 67, 0, 0, 0, 1, 0, 0, 0, 7], pos := 8,
                             readOnly := false } } ∧
    (RemoveReference
      { mAccountID := 1, mReadOnly := false,
        mapDatabaseFile := { bytes := [82, 101, 102, 67, 0, 0, 0, 1, 0, 0, 0, 7], pos := 8,
                             readOnly := false } } (2 ^ 62 + 1)).1 = .ok true ∧
    (RemoveReference
      { mAccountID := 1, mReadOnly := false,
        mapDatabaseFile := { bytes := [82, 101, 102, 67, 0, 0, 0, 1, 0, 0, 0, 7], pos := 8,
                             readOnly := false } } (2 ^ 62 + 1)).2.mapDatabaseFile.bytes
      = [82, 101, 102, 67, 0, 0, 0, 1, 0, 0, 0, 6] := by
  decide

/-- C11 (amended): on every table with a file of at least 8 bytes and for every
`id > GetLastObjectIDUsed()` whose slot ends below `2^63` (`4 * id + 8 <
2^63`), `RemoveReference(id)` ends in the unknown-object error, which
`GetRefCount` raises before the assertion is reached, and leaves the handle and
every byte of the file as they were. -/
theorem C11_remove_reference_beyond_table (db : BackupStoreRefCountDatabase) (ObjectID : Int)
    (hsize : 8 ≤ db.mapDatabaseFile.bytes.length)
    (hbeyond : ObjectID > GetLastObjectIDUsed db)
    (hmax : 4 * ObjectID + 8 < 2 ^ 63) :
    (RemoveReference db ObjectID).1 = .error .UnknownObjectRefCountRequested ∧
    (RemoveReference db ObjectID).2 = db := by
  have hlast := GetLastObjectIDUsed_eq db hsize
  have hoff := GetOffset_eq ObjectID (by omega) hmax
  have hget := GetRefCount_eq db ObjectID (by omega) (by omega)
  simp only [GetSize] at hget
  rw [if_pos (by omega)] at hget
  have h1 : (GetRefCount db ObjectID).1 = .error .UnknownObjectRefCountRequested := by
    rw [hget]
  rw [RemoveReference_error db ObjectID _ h1, hget]
  exact ⟨rfl, rfl⟩

/-- C11 (amended) at a header-only table and `id = 1`. -/
theorem C11_remove_reference_beyond_table_witness :
    (RemoveReference
      { mAccountID := 1, mReadOnly := true,
        mapDatabaseFile := { bytes := [82, 101, 102, 67, 0, 0, 0, 1], pos := 8,
                             readOnly := true } } 1).1
      = .error .UnknownObjectRefCountRequested :=
  (C11_remove_reference_beyond_table
    { mAccountID := 1, mReadOnly := true,
      mapDatabaseFile := { bytes := [82, 101, 102, 67, 0, 0, 0, 1], pos := 8,
                           readOnly := true } } 1 (by decide) (by decide) (by decide)).1

/-- C12: what `Create` does when it overwrites an existing table: with
`AllowOverwrite` and an existing file holding the header of account 1 and one
slot with count 7, `Create` succeeds and leaves all 12 bytes in place; the file
is not header-only, a following `Load` has `GetLastObjectIDUsed() = 1` and
`GetRefCount(1)` returns the old count 7. -/
theorem C12_create_over_existing_keeps_slots :
    (Create 1 true (some [82, 101, 102, 67, 0, 0, 0, 1, 0, 0, 0, 7])).1 = .ok () ∧
    (Create 1 true (some [82, 101, 102, 67, 0, 0, 0, 1, 0, 0, 0, 7])).2 =
      some [82, 101, 102, 67, 0, 0, 0, 1, 0, 0, 0, 7] ∧
    Load 1 false (Create 1 true (some [82, 101, 102, 67, 0, 0, 0, 1, 0, 0, 0, 7])).2 =
      .ok { mAccountID := 1, mReadOnly := false,
            mapDatabaseFile := { bytes := [82, 101, 102, 67, 0, 0, 0, 1, 0, 0, 0, 7], pos := 8,
                                 readOnly := false } } ∧
    GetLastObjectIDUsed
      { mAccountID := 1, mReadOnly := false,
        mapDatabaseFile := { bytes := [82, 101, 102, 67, 0, 0, 0, 1, 0, 0, 0, 7], pos := 8,
                             readOnly := false } } = 1 ∧
    (GetRefCount
      { mAccountID := 1, mReadOnly := false,
        mapDatabaseFile := { bytes := [82, 101, 102, 67, 0, 0, 0, 1, 0, 0, 0, 7], pos := 8,
                             readOnly := false } } 1).1 = .ok 7 := by
  decide

/-- C13: for every file content `F`, every account ID `x` and either open
mode: `Load` fails with the short-read error `CouldNotLoadStoreInfo` exactly
when `|F| < 8`; when `|F| ≥ 8` it fails with `BadStoreInfoOnLoad` exactly when
the big-endian value of `F[0..4)` differs from `0x52656643` or the big-endian
signed value of `F[4..8)` differs from `x`; otherwise it succeeds; and two
files with the same first 8 bytes give the same outcome. -/
theorem C13_load_outcome (F : List Byte) (x : Int) (ReadOnly : Bool) :
    (Load x ReadOnly (some F) = .error .CouldNotLoadStoreInfo ↔ F.length < 8) ∧
    (8 ≤ F.length →
      (Load x ReadOnly (some F) = .error .BadStoreInfoOnLoad ↔
        (ntohl (F.take 4) ≠ 0x52656643 ∨ toInt32 (ntohl ((F.drop 4).take 4)) ≠ x))) ∧
    (8 ≤ F.length → ntohl (F.take 4) = 0x52656643 →
      toInt32 (ntohl ((F.drop 4).take 4)) = x →
      Load x ReadOnly (some F) =
        .ok { mAccountID := x, mReadOnly := ReadOnly,
              mapDatabaseFile := { bytes := F, pos := 8, readOnly := ReadOnly } }) ∧
    (∀ G : List Byte, G.take 8 = F.take 8 →
      (Load x ReadOnly (some G)).map (fun _ => ()) =
        (Load x ReadOnly (some F)).map (fun _ => ())) := by
  have hF := Load_some x ReadOnly F
  simp only [REFCOUNT_MAGIC_VALUE] at hF
  refine ⟨?_, ?_, ?_, ?_⟩
  · rw [hF]
    constructor
    · intro h
      by_contra hlen
      rw [if_neg hlen] at h
      split at h <;> exact absurd h (by simp)
    · intro h
      rw [if_pos h]
  · intro hlen
    rw [hF, if_neg (by omega)]
    constructor
    · intro h
      by_contra hbad
      rw [if_neg hbad] at h
      exact absurd h (by simp)
    · intro h
      rw [if_pos h]
  · intro hlen hmagic hacct
    rw [hF, if_neg (by omega), if_neg (by simp [hmagic, hacct])]
  · intro G hG
    exact Load_outcome_congr x ReadOnly F G hG

/-- C13 at a concrete file: a header for account 5 followed by one stray byte
loads for account 5. -/
theorem C13_load_outcome_witness :
    Load 5 true (some [82, 101, 102, 67, 0, 0, 0, 5, 9]) =
      .ok { mAccountID := 5, mReadOnly := true,
            mapDatabaseFile := { bytes := [82, 101, 102, 67, 0, 0, 0, 5, 9], pos := 8,
                                 readOnly := true } } :=
  (C13_load_outcome [82, 101, 102, 67, 0, 0, 0, 5, 9] 5 true).2.2.1 (by decide) (by decide)
    (by decide)

/-- C14: for account IDs in the signed 32-bit range and every prior state of
the file in which `Create(A)` succeeds, a following `Load(B)` in either mode
fails with `BadStoreInfoOnLoad` exactly when `B`'s ID differs from `A`'s ID, and
`Load(A)` succeeds. -/
theorem C14_create_then_load (a b : Int) (AllowOverwrite ReadOnly : Bool)
    (file : Option (List Byte)) (ha1 : -2 ^ 31 ≤ a) (ha2 : a < 2 ^ 31)
    (hcreate : (Create a AllowOverwrite file).1 = .ok ()) :
    (Load b ReadOnly (Create a AllowOverwrite file).2 = .error .BadStoreInfoOnLoad ↔ b ≠ a) ∧
    (∃ db, Load a ReadOnly (Create a AllowOverwrite file).2 = .ok db) := by
  rw [Create_eq] at hcreate ⊢
  by_cases hex : (file.isSome && !AllowOverwrite) = true
  · rw [if_pos hex] at hcreate
    exact absurd hcreate (by simp)
  · rw [if_neg hex]
    simp only
    have hlen := length_writeAt (file.getD []) 0
      (htonl REFCOUNT_MAGIC_VALUE ++ htonl (toUInt32 a))
    have htake := take_writeAt_zero (file.getD [])
      (htonl REFCOUNT_MAGIC_VALUE ++ htonl (toUInt32 a))
    have hl8 : (htonl REFCOUNT_MAGIC_VALUE ++ htonl (toUInt32 a)).length = 8 := rfl
    rw [hl8] at hlen htake
    generalize writeAt (file.getD []) 0 (htonl REFCOUNT_MAGIC_VALUE ++ htonl (toUInt32 a)) = F
      at hlen htake
    have h4 : F.take 4 = htonl REFCOUNT_MAGIC_VALUE := by
      have h1 := congrArg (List.take 4) htake
      rw [List.take_take] at h1
      exact h1
    have h48 : (F.drop 4).take 4 = htonl (toUInt32 a) := by
      have h1 := congrArg (List.drop 4) htake
      rw [List.drop_take] at h1
      exact h1
    have hmagic : ntohl (F.take 4) = REFCOUNT_MAGIC_VALUE := by
      rw [h4]; rfl
    have hacct : toInt32 (ntohl ((F.drop 4).take 4)) = a := by
      rw [h48, ntohl_htonl_mod, toInt32_toUInt32 a ha1 ha2]
    constructor
    · rw [Load_some, if_neg (by omega), hmagic, hacct]
      constructor
      · intro h hba
        rw [if_neg (by simp [hba])] at h
        exact absurd h (by simp)
      · intro h
        rw [if_pos (Or.inr (fun e => h e.symm))]
    · rw [Load_some, if_neg (by omega), if_neg (by simp [hmagic, hacct])]
      exact ⟨_, rfl⟩

/-- C14 at accounts `-2` and `7` on an absent file. -/
theorem C14_create_then_load_witness :
    (Load 7 true (Create (-2) false none).2 = .error .BadStoreInfoOnLoad ↔ (7 : Int) ≠ -2) ∧
    (∃ db, Load (-2) true (Create (-2) false none).2 = .ok db) :=
  C14_create_then_load (-2) 7 false true none (by decide) (by decide) (by decide)

/-- C15 (as stated) fails for an object ID whose slot offset does not fit the
signed 64-bit stream position: on the 12-byte table, whose last object ID is 1,
`AddReference(2^62 + 1)` and `SetRefCount(2^62 + 1, 9)` raise no error, write at
the wrapped offset 8 and leave the file 12 bytes long; the last object ID is
still 1 and not `max(1, 2^62 + 1)`. -/
theorem C15_counterexample_wrapped_id_does_not_grow :
    GetLastObjectIDUsed
      { mAccountID := 1, mReadOnly := false,
        mapDatabaseFile := { bytes := [82, 101, 102, 67, 0, 0, 0, 1, 0, 0, 0, 7], pos := 8,
                             readOnly := false } } = 1 ∧
    (AddReference
      { mAccountID := 1, mReadOnly := false,
        mapDatabaseFile := { bytes := [82, 101, 102, 67, 0, 0, 0, 1, 0, 0, 0, 7], pos := 8,
                             readOnly := false } } (2 ^ 62 + 1)).1 = .ok () ∧
    GetLastObjectIDUsed (AddReference
      { mAccountID := 1, mReadOnly := false,
        mapDatabaseFile := { bytes := [82, 101, 102, 67, 0, 0, 0, 1, 0, 0, 0, 7], pos := 8,
                             readOnly := false } } (2 ^ 62 + 1)).2 = 1 ∧
    (SetRefCount
      { mAccountID := 1, mReadOnly := false,
        mapDatabaseFile := { bytes := [82, 101, 102, 67, 0, 0, 0, 1, 0, 0, 0, 7], pos := 8,
                             readOnly := false } } (2 ^ 62 + 1) 9).1 = .ok () ∧
    GetLastObjectIDUsed (SetRefCount
      { mAccountID := 1, mReadOnly := false,
        mapDatabaseFile := { bytes := [82, 101, 102, 67, 0, 0, 0, 1, 0, 0, 0, 7], pos := 8,
                             readOnly := false } } (2 ^ 62 + 1) 9).2 = 1 ∧
    max (1 : Int) (2 ^ 62 + 1) ≠ 1 := by
  decide

/-- C15 (amended): on a table opened read-write with a file of at least 8 bytes
and for every `id ≥ 1`: none of `SetRefCount(id, v)`, `AddReference(id)` and
`RemoveReference(id)`, whether it returns or throws, decreases the last object
ID; after a `RemoveReference(id)` that returned a value it is the previous one;
and when the slot of `id` ends below `2^63` (`4 * id + 8 < 2^63`), after
`SetRefCount(id, v)` and after `AddReference(id)` it is `max(previous, id)`. -/
theorem C15_last_object_id_never_shrinks (db : BackupStoreRefCountDatabase) (ObjectID : Int)
    (v : Nat) (hrw : db.mapDatabaseFile.readOnly = false)
    (hsize : 8 ≤ db.mapDatabaseFile.bytes.length) (hid : 1 ≤ ObjectID) :
    GetLastObjectIDUsed db ≤ GetLastObjectIDUsed (SetRefCount db ObjectID v).2 ∧
    GetLastObjectIDUsed db ≤ GetLastObjectIDUsed (AddReference db ObjectID).2 ∧
    GetLastObjectIDUsed db ≤ GetLastObjectIDUsed (RemoveReference db ObjectID).2 ∧
    (∀ r : Bool, (RemoveReference db ObjectID).1 = .ok r →
      GetLastObjectIDUsed (RemoveReference db ObjectID).2 = GetLastObjectIDUsed db) ∧
    (4 * ObjectID + 8 < 2 ^ 63 →
      GetLastObjectIDUsed (SetRefCount db ObjectID v).2 = max (GetLastObjectIDUsed db) ObjectID ∧
      GetLastObjectIDUsed (AddReference db ObjectID).2 =
        max (GetLastObjectIDUsed db) ObjectID) := by
  refine ⟨Call.run_last_le db (.set ObjectID v) hsize, Call.run_last_le db (.add ObjectID) hsize,
    Call.run_last_le db (.remove ObjectID) hsize, ?_, ?_⟩
  · intro r hr
    obtain ⟨h0, hin, u, hrem⟩ := RemoveReference_ok_bytes db ObjectID r hrw hr
    have hlen := length_writeAt db.mapDatabaseFile.bytes (GetOffset ObjectID).toNat (htonl u)
    rw [length_htonl, ← hrem] at hlen
    rw [GetLastObjectIDUsed_eq db hsize, GetLastObjectIDUsed_eq _ (by omega)]
    have e : (RemoveReference db ObjectID).2.mapDatabaseFile.bytes.length =
        db.mapDatabaseFile.bytes.length := by omega
    rw [e]
  · intro hmax
    have hoff := GetOffset_eq ObjectID hid hmax
    have h0 : 0 ≤ GetOffset ObjectID := by omega
    obtain ⟨_, hset, _⟩ := SetRefCount_spec db ObjectID v h0 hrw
    obtain ⟨_, w, hadd⟩ := AddReference_bytes db ObjectID hrw hsize hid hmax
    exact ⟨GetLastObjectIDUsed_writeAt db _ ObjectID v hsize hid hmax hset,
      GetLastObjectIDUsed_writeAt db _ ObjectID w hsize hid hmax hadd⟩

/-- C15 (amended) at a concrete table with one slot holding 2 and `id = 3`. -/
theorem C15_last_object_id_never_shrinks_witness :
    GetLastObjectIDUsed (SetRefCount
      { mAccountID := 1, mReadOnly := false,
        mapDatabaseFile := { bytes := [82, 101, 102, 67, 0, 0, 0, 1, 0, 0, 0, 2], pos := 8,
                             readOnly := false } } 3 9).2 =
      max (GetLastObjectIDUsed
        { mAccountID := 1, mReadOnly := false,
          mapDatabaseFile := { bytes := [82, 101, 102, 67, 0, 0, 0, 1, 0, 0, 0, 2], pos := 8,
                               readOnly := false } }) 3 :=
  ((C15_last_object_id_never_shrinks
    { mAccountID := 1, mReadOnly := false,
      mapDatabaseFile := { bytes := [82, 101, 102, 67, 0, 0, 0, 1, 0, 0, 0, 2], pos := 8,
                           readOnly := false } } 3 9 rfl (by decide) (by decide)).2.2.2.2
    (by decide)).1

/-- C16 (as stated) fails for an object ID whose slot offset does not fit the
signed 64-bit stream position: on a header-only table `SetRefCount(2^62 + 1,
0x01020304)` raises no error and writes at the wrapped offset 8; the file is 12
bytes long afterwards, so there are no bytes at the offsets `8 + 4 * 2^62` to
`8 + 4 * 2^62 + 3`.  For `id = 2^61` the offset wraps to a negative position,
the seek is refused and nothing is written. -/
theorem C16_counterexample_wrapped_offset :
    (SetRefCount
      { mAccountID := 1, mReadOnly := false,
        mapDatabaseFile := { bytes := [82, 101, 102, 67, 0, 0, 0, 1], pos := 8,
                             readOnly := false } } (2 ^ 62 + 1) 0x01020304).1 = .ok () ∧
    (SetRefCount
      { mAccountID := 1, mReadOnly := false,
        mapDatabaseFile := { bytes := [82, 101, 102, 67, 0, 0, 0, 1], pos := 8,
                             readOnly := false } }
      (2 ^ 62 + 1) 0x01020304).2.mapDatabaseFile.bytes.map Fin.val =
      [82, 101, 102, 67, 0, 0, 0, 1, 1, 2, 3, 4] ∧
    (((SetRefCount
        { mAccountID := 1, mReadOnly := false,
          mapDatabaseFile := { bytes := [82, 101, 102, 67, 0, 0, 0, 1], pos := 8,
                               readOnly := false } }
        (2 ^ 62 + 1) 0x01020304).2.mapDatabaseFile.bytes.drop
        (8 + 4 * ((2 ^ 62 + 1 : Int).toNat - 1))).take 4).map Fin.val ≠ [1, 2, 3, 4] ∧
    (SetRefCount
      { mAccountID := 1, mReadOnly := false,
        mapDatabaseFile := { bytes := [82, 101, 102, 67, 0, 0, 0, 1], pos := 8,
                             readOnly := false } } (2 ^ 61) 0x01020304).1
      = .error .OSFileError ∧
    (SetRefCount
      { mAccountID := 1, mReadOnly := false,
        mapDatabaseFile := { bytes := [82, 101, 102, 67, 0, 0, 0, 1], pos := 8,
                             readOnly := false } }
      (2 ^ 61) 0x01020304).2.mapDatabaseFile.bytes.map Fin.val =
      [82, 101, 102, 67, 0, 0, 0, 1] := by
  refine ⟨by decide, by decide, ?_, by decide, by decide⟩
  have hb : (SetRefCount
      { mAccountID := 1, mReadOnly := false,
        mapDatabaseFile := { bytes := [82, 101, 102, 67, 0, 0, 0, 1], pos := 8,
                             readOnly := false } }
      (2 ^ 62 + 1) 0x01020304).2.mapDatabaseFile.bytes.length = 12 := by decide
  intro h
  have hl := congrArg List.length h
  rw [List.length_map, List.length_take, List.length_drop, hb] at hl
  have e : (2 ^ 62 + 1 : Int).toNat = 2 ^ 62 + 1 := by decide
  rw [e] at hl
  simp at hl

/-- C16 (amended): the bytes on disk.  After `Create` on an absent file the 8
bytes are `0x52 0x65 0x66 0x43` followed by the account ID reduced modulo
`2^32` (its two's-complement encoding), most significant byte first.  After
`SetRefCount(id, v)` with `id ≥ 1`, the slot of `id` ending below `2^63`
(`4 * id + 8 < 2^63`), and `v < 2^32` on a writable table the 4 bytes at
offsets `8 + 4 * (id - 1)` to `8 + 4 * (id - 1) + 3` are `v`, most significant
byte first. -/
theorem C16_bytes_on_disk :
    (∀ (accountID : Int) (AllowOverwrite : Bool),
      (Create accountID AllowOverwrite none).1 = .ok () ∧
      (Create accountID AllowOverwrite none).2.map (List.map Fin.val) =
        some [0x52, 0x65, 0x66, 0x43,
          (accountID % 2 ^ 32).toNat / 2 ^ 24 % 256, (accountID % 2 ^ 32).toNat / 2 ^ 16 % 256,
          (accountID % 2 ^ 32).toNat / 2 ^ 8 % 256, (accountID % 2 ^ 32).toNat % 256]) ∧
    (∀ (db : BackupStoreRefCountDatabase) (ObjectID : Int) (v : Nat),
      db.mapDatabaseFile.readOnly = false → 1 ≤ ObjectID → 4 * ObjectID + 8 < 2 ^ 63 →
      v < 2 ^ 32 →
      (SetRefCount db ObjectID v).1 = .ok () ∧
      (((SetRefCount db ObjectID v).2.mapDatabaseFile.bytes.drop
          (8 + 4 * (ObjectID.toNat - 1))).take 4).map Fin.val =
        [v / 2 ^ 24, v / 2 ^ 16 % 256, v / 2 ^ 8 % 256, v % 256]) := by
  constructor
  · intro accountID AllowOverwrite
    rw [Create_none]
    exact ⟨rfl, rfl⟩
  · intro db ObjectID v hrw hid hmax hv
    have hoff := GetOffset_eq ObjectID hid hmax
    obtain ⟨hok, hb, _⟩ := SetRefCount_spec db ObjectID v (by omega) hrw
    refine ⟨hok, ?_⟩
    have hread := read_writeAt_same db.mapDatabaseFile.bytes (GetOffset ObjectID).toNat
      (htonl v)
    rw [length_htonl] at hread
    have e : 8 + 4 * (ObjectID.toNat - 1) = (GetOffset ObjectID).toNat := by omega
    rw [e, hb, hread]
    have h24 : v / 2 ^ 24 % 256 = v / 2 ^ 24 := by omega
    simp only [htonl, List.map_cons, List.map_nil, h24]

/-- C16 (amended) at account `-2` and at `SetRefCount(2, 0x01020304)` on a
header-only table. -/
theorem C16_bytes_on_disk_witness :
    (Create (-2) false none).2.map (List.map Fin.val) =
      some [0x52, 0x65, 0x66, 0x43, 0xff, 0xff, 0xff, 0xfe] ∧
    (((SetRefCount
        { mAccountID := 1, mReadOnly := false,
          mapDatabaseFile := { bytes := [82, 101, 102, 67, 0, 0, 0, 1], pos := 8,
                               readOnly := false } } 2 0x01020304).2.mapDatabaseFile.bytes.drop
        (8 + 4 * ((2 : Int).toNat - 1))).take 4).map Fin.val = [1, 2, 3, 4] :=
  ⟨(C16_bytes_on_disk.1 (-2) false).2,
   (C16_bytes_on_disk.2
    { mAccountID := 1, mReadOnly := false,
      mapDatabaseFile := { bytes := [82, 101, 102, 67, 0, 0, 0, 1], pos := 8,
                           readOnly := false } } 2 0x01020304 rfl (by decide) (by decide)
    (by decide)).2⟩

/-- C17 (as stated) fails for an object ID whose slot offset does not fit the
signed 64-bit stream position: on the 12-byte table whose slot 1 holds 7,
`AddReference(2^62 + 1)` writes at the wrapped offset 8, the slot of ID 1;
`GetRefCount(1)` returned 7 before the call and returns 1 after it, though
`1 ≠ 2^62 + 1` and 1 is not above the previous last object ID. -/
theorem C17_counterexample_wrapped_id_overwrites_slot_1 :
    (1 : Int) ≤ GetLastObjectIDUsed
      { mAccountID := 1, mReadOnly := false,
        mapDatabaseFile := { bytes := [82, 101, 102, 67, 0, 0, 0, 1, 0, 0, 0, 7], pos := 8,
                             readOnly := false } } ∧
    (1 : Int) ≠ 2 ^ 62 + 1 ∧
    (GetRefCount
      { mAccountID := 1, mReadOnly := false,
        mapDatabaseFile := { bytes := [82, 101, 102, 67, 0, 0, 0, 1, 0, 0, 0, 7], pos := 8,
                             readOnly := false } } 1).1 = .ok 7 ∧
    (GetRefCount (AddReference
      { mAccountID := 1, mReadOnly := false,
        mapDatabaseFile := { bytes := [82, 101, 102, 67, 0, 0, 0, 1, 0, 0, 0, 7], pos := 8,
                             readOnly := false } } (2 ^ 62 + 1)).2 1).1 = .ok 1 ∧
    ¬ OtherSlotsKept
      { mAccountID := 1, mReadOnly := false,
        mapDatabaseFile := { bytes := [82, 101, 102, 67, 0, 0, 0, 1, 0, 0, 0, 7], pos := 8,
                             readOnly := false } }
      (AddReference
        { mAccountID := 1, mReadOnly := false,
          mapDatabaseFile := { bytes := [82, 101, 102, 67, 0, 0, 0, 1, 0, 0, 0, 7], pos := 8,
                               readOnly := false } } (2 ^ 62 + 1)).2 (2 ^ 62 + 1) := by
  refine ⟨by decide, by decide, by decide, by decide, ?_⟩
  intro h
  exact absurd (h.2 1 (by decide) (by decide) (by decide)) (by decide)

/-- C17 (amended): on a table opened read-write with a file of at least 8 and
fewer than `2^63` bytes, for every `id ≥ 1` whose slot ends below `2^63`
(`4 * id + 8 < 2^63`) and every value `v`: each of `SetRefCount(id, v)`,
`AddReference(id)` and `RemoveReference(id)`, whether it returns or throws,
leaves the 8 header bytes unchanged and leaves `GetRefCount(j)` as it was for
every `j ≠ id` with `1 ≤ j ≤` the previous `GetLastObjectIDUsed()`; and a handle
with the header bytes unchanged gives the same outcome of `Load` for every
account. -/
theorem C17_calls_change_only_their_slot (db : BackupStoreRefCountDatabase) (ObjectID : Int)
    (v : Nat) (hrw : db.mapDatabaseFile.readOnly = false)
    (hsize : 8 ≤ db.mapDatabaseFile.bytes.length)
    (hlt : (db.mapDatabaseFile.bytes.length : Int) < 2 ^ 63) (hid : 1 ≤ ObjectID)
    (hmax : 4 * ObjectID + 8 < 2 ^ 63) :
    OtherSlotsKept db (SetRefCount db ObjectID v).2 ObjectID ∧
    OtherSlotsKept db (AddReference db ObjectID).2 ObjectID ∧
    OtherSlotsKept db (RemoveReference db ObjectID).2 ObjectID ∧
    (∀ db1 : BackupStoreRefCountDatabase, OtherSlotsKept db db1 ObjectID →
      ∀ (x : Int) (ReadOnly : Bool),
        (Load x ReadOnly (some db1.mapDatabaseFile.bytes)).map (fun _ => ()) =
          (Load x ReadOnly (some db.mapDatabaseFile.bytes)).map (fun _ => ())) := by
  have _ := hrw
  exact ⟨Call.run_kept db (.set ObjectID v) hsize hlt hid hmax,
    Call.run_kept db (.add ObjectID) hsize hlt hid hmax,
    Call.run_kept db (.remove ObjectID) hsize hlt hid hmax,
    fun _ hkept x ReadOnly => Load_outcome_congr x ReadOnly _ _ hkept.1⟩

/-- C17 (amended) at a concrete table with two slots holding 2 and 5:
`AddReference(1)` leaves `GetRefCount(2) = 5`. -/
theorem C17_calls_change_only_their_slot_witness :
    (GetRefCount (AddReference
      { mAccountID := 1, mReadOnly := false,
        mapDatabaseFile := { bytes := [82, 101, 102, 67, 0, 0, 0, 1, 0, 0, 0, 2, 0, 0, 0, 5],
                             pos := 8, readOnly := false } } 1).2 2).1 = .ok 5 :=
  ((C17_calls_change_only_their_slot
    { mAccountID := 1, mReadOnly := false,
      mapDatabaseFile := { bytes := [82, 101, 102, 67, 0, 0, 0, 1, 0, 0, 0, 2, 0, 0, 0, 5],
                           pos := 8, readOnly := false } } 1 0 rfl (by decide) (by decide)
    (by decide) (by decide)).2.1.2 2 (by decide) (by decide) (by decide)).trans rfl

/-- C18: the defect of C1 at a skip greater than the window length: with a
buffer of `2^32 + 1` bytes, window length 1 and skip `2^32` (so that
`length ≥ 1` and `length + skip ≤ |D|`) the `unsigned int` loop counter never
reaches `Skip`, and `RollForwardSeveral` produces no result whatever the
fuel. -/
theorem C18_rollForwardSeveral_long_skip_no_result :
    1 + 2 ^ 32 ≤ (List.replicate (2 ^ 32 + 1) (0 : Byte)).length ∧
    ∀ fuel : Nat,
      RollingChecksum.RollForwardSeveral fuel
        (RollingChecksum.new (List.replicate (2 ^ 32 + 1) (0 : Byte)) 1)
        (List.replicate (2 ^ 32 + 1) (0 : Byte))
        ((List.replicate (2 ^ 32 + 1) (0 : Byte)).drop 1) 1 (2 ^ 32) = none := by
  constructor
  · rw [List.length_replicate]; decide
  · intro fuel
    rw [RollingChecksum.RollForwardSeveral,
      RollingChecksum.rollLoop_wraps _ _ _ (Nat.le_refl _) fuel 0 0 _ (by decide)]

/-- C19: on a table opened read-write with a file of at least 8 bytes, for
every `id` with `1 ≤ id ≤ GetLastObjectIDUsed()` whose slot holds the count
`c`, that is, `GetRefCount(id)` returns `c`: `AddReference(id)` raises no error
and leaves `GetRefCount(id) = (c + 1) mod 2^32`; for `c = 2^32 - 1` that is 0.
The condition `id ≤ GetLastObjectIDUsed()` is a hypothesis of its own, since a
successful `GetRefCount(id)` does not imply it (`AddReference_wrapped_id`). -/
theorem C19_add_reference_wraps (db : BackupStoreRefCountDatabase) (ObjectID : Int) (c : Nat)
    (hrw : db.mapDatabaseFile.readOnly = false)
    (hsize : 8 ≤ db.mapDatabaseFile.bytes.length) (hid : 1 ≤ ObjectID)
    (hle : ObjectID ≤ GetLastObjectIDUsed db)
    (hc : (GetRefCount db ObjectID).1 = .ok c) :
    (AddReference db ObjectID).1 = .ok () ∧
    (GetRefCount (AddReference db ObjectID).2 ObjectID).1 = .ok ((c + 1) % 2 ^ 32) ∧
    (c = 2 ^ 32 - 1 → (GetRefCount (AddReference db ObjectID).2 ObjectID).1 = .ok 0) := by
  have _ := hid
  obtain ⟨hok, _, _, hget⟩ := AddReference_spec db ObjectID c hrw hsize (Or.inr ⟨hle, hc⟩)
  refine ⟨hok, hget, ?_⟩
  intro hmax
  rw [hget, hmax]
  rfl

/-- C19 at a concrete table whose slot 1 holds `2^32 - 1`. -/
theorem C19_add_reference_wraps_witness :
    (GetRefCount (AddReference
      { mAccountID := 1, mReadOnly := false,
        mapDatabaseFile := { bytes := [82, 101, 102, 67, 0, 0, 0, 1, 255, 255, 255, 255],
                             pos := 8, readOnly := false } } 1).2 1).1 = .ok 0 :=
  (C19_add_reference_wraps
    { mAccountID := 1, mReadOnly := false,
      mapDatabaseFile := { bytes := [82, 101, 102, 67, 0, 0, 0, 1, 255, 255, 255, 255],
                           pos := 8, readOnly := false } } 1 4294967295 rfl (by decide)
    (by decide) (by decide) rfl).2.2 (by decide)
/-! ## Lemmas: SplitString -/

/-- `findFrom` returns `npos` exactly on a list without the character. -/
theorem findFrom_none (c : Byte) : ∀ (l : List Byte) (i : Nat),
    findFrom c l i = none → c ∉ l := by
  intro l
  induction l with
  | nil => intro i _; simp
  | cons x xs ih =>
    intro i h
    rw [findFrom] at h
    by_cases hx : x = c
    · rw [if_pos hx] at h
      exact absurd h (by simp)
    · rw [if_neg hx] at h
      intro hmem
      rcases List.mem_cons.1 hmem with h1 | h1
      · exact hx h1.symm
      · exact ih _ h h1

/-- An index returned by `findFrom` cuts the list into a run without the
character, the character, and the rest. -/
theorem findFrom_some (c : Byte) : ∀ (l : List Byte) (i e : Nat),
    findFrom c l i = some e →
      ∃ pre post, l = pre ++ c :: post ∧ c ∉ pre ∧ e = i + pre.length := by
  intro l
  induction l with
  | nil => intro i e h; simp [findFrom] at h
  | cons x xs ih =>
    intro i e h
    rw [findFrom] at h
    by_cases hx : x = c
    · rw [if_pos hx] at h
      refine ⟨[], xs, by rw [hx]; rfl, by simp, ?_⟩
      have := Option.some.inj h
      simp only [List.length_nil]
      omega
    · rw [if_neg hx] at h
      obtain ⟨pre, post, hl, hpre, he⟩ := ih _ _ h
      refine ⟨x :: pre, post, by rw [hl]; rfl, ?_, by simp only [List.length_cons]; omega⟩
      intro hmem
      rcases List.mem_cons.1 hmem with h1 | h1
      · exact hx h1.symm
      · exact hpre h1

theorem maximalRuns_of_not_mem (c : Byte) (l : List Byte) (h : c ∉ l) :
    maximalRuns c l = if l = [] then [] else [l] := by
  unfold maximalRuns List.splitOn
  rw [List.splitOnP_eq_single]
  · cases l with
    | nil => rfl
    | cons x xs => rfl
  · intro x hx hxc
    have : x = c := by simpa using hxc
    exact h (this ▸ hx)

theorem maximalRuns_append (c : Byte) (pre post : List Byte) (h : c ∉ pre) :
    maximalRuns c (pre ++ c :: post) =
      (if pre = [] then [] else [pre]) ++ maximalRuns c post := by
  unfold maximalRuns List.splitOn
  rw [List.splitOnP_first]
  · cases pre with
    | nil => rfl
    | cons x xs => rfl
  · intro x hx hxc
    have : x = c := by simpa using hxc
    exact h (this ▸ hx)
  · simp

/-- Invariant of the loop of `SplitString` on a string shorter than `2^32`:
started at `b` with enough fuel it ends, and the output after the final test
of lines 51 to 54 is the output at the start followed by the maximal runs of
the rest of the string. -/
theorem splitLoop_spec (S : List Byte) (c : Byte) (hS : S.length < 2 ^ 32) :
    ∀ (fuel b : Nat) (out : List (List Byte)), b ≤ S.length → S.length - b < fuel →
      ∃ b1 out1, splitLoop S c fuel b out = some (b1, out1) ∧
        (if b1 < S.length then out1 ++ [S.drop b1] else out1) =
          out ++ maximalRuns c (S.drop b) := by
  intro fuel
  induction fuel with
  | zero => intro b out _ hf; omega
  | succ f ih =>
    intro b out hb hf
    rw [splitLoop]
    cases hfind : find_first_of S c b with
    | none =>
      refine ⟨b, out, rfl, ?_⟩
      have hnot := findFrom_none c _ _ hfind
      rw [maximalRuns_of_not_mem c _ hnot]
      by_cases hlt : b < S.length
      · rw [if_pos hlt, if_neg]
        intro hnil
        have := congrArg List.length hnil
        rw [List.length_drop] at this
        simp at this
        omega
      · rw [if_neg hlt, if_pos (List.drop_eq_nil_of_le (by omega))]
        simp
    | some e =>
      obtain ⟨pre, post, hl, hpre, he⟩ := findFrom_some c _ _ _ hfind
      have hlen : (S.drop b).length = pre.length + (post.length + 1) := by
        rw [hl]; simp
      rw [List.length_drop] at hlen
      have hpost : S.drop (e + 1) = post := by
        have h1 : S.drop (e + 1) = (S.drop b).drop (pre.length + 1) := by
          rw [List.drop_drop]
          congr 1
          omega
        rw [h1, hl]
        have h2 : pre.length + 1 = (pre ++ [c]).length := by simp
        rw [h2, ← List.drop_left (pre ++ [c]) post]
        simp
      have hsub : substr S b pre.length = pre := by
        unfold substr
        rw [hl, List.take_left]
      have hmod : (e - b) % 2 ^ 32 = pre.length := by
        rw [he, Nat.add_sub_cancel_left]
        exact Nat.mod_eq_of_lt (by omega)
      obtain ⟨b1, out1, hloop, hfin⟩ := ih (e + 1)
        (if pre.length ≥ 1 then out ++ [pre] else out) (by omega) (by omega)
      refine ⟨b1, out1, ?_, ?_⟩
      · simp only [hmod, hsub]
        exact hloop
      · rw [hfin, hpost, hl, maximalRuns_append c pre post hpre]
        cases pre with
        | nil => simp
        | cons x xs => simp

/-- A string either lacks the character or is cut at its first occurrence. -/
theorem first_occurrence (c : Byte) (S : List Byte) :
    c ∉ S ∨ ∃ pre post, S = pre ++ c :: post ∧ c ∉ pre := by
  cases h : findFrom c S 0 with
  | none => exact Or.inl (findFrom_none c S 0 h)
  | some e =>
    obtain ⟨pre, post, hl, hpre, _⟩ := findFrom_some c S 0 e h
    exact Or.inr ⟨pre, post, hl, hpre⟩

/-- No piece of the cut at `c` contains `c`. -/
theorem not_mem_of_mem_splitOn (c : Byte) : ∀ (n : Nat) (S : List Byte), S.length ≤ n →
    ∀ p ∈ S.splitOn c, c ∉ p := by
  intro n
  induction n with
  | zero =>
    intro S hS p hp
    have hnil : S = [] := List.eq_nil_of_length_eq_zero (by omega)
    subst hnil
    have : p = [] := by simpa [List.splitOn, List.splitOnP_nil] using hp
    rw [this]
    simp
  | succ n ih =>
    intro S hS p hp
    rcases first_occurrence c S with hnot | ⟨pre, post, hl, hpre⟩
    · have hs : S.splitOn c = [S] := by
        unfold List.splitOn
        apply List.splitOnP_eq_single
        intro x hx hxc
        have : x = c := by simpa using hxc
        exact hnot (this ▸ hx)
      rw [hs] at hp
      have : p = S := by simpa using hp
      rw [this]
      exact hnot
    · have hs : S.splitOn c = pre :: post.splitOn c := by
        rw [hl]
        unfold List.splitOn
        apply List.splitOnP_first
        · intro x hx hxc
          have : x = c := by simpa using hxc
          exact hpre (this ▸ hx)
        · simp
      rw [hs] at hp
      rcases List.mem_cons.1 hp with h1 | h1
      · rw [h1]; exact hpre
      · have hlen : post.length ≤ n := by
          have := congrArg List.length hl
          simp at this
          omega
        exact ih post hlen p h1

/-- The maximal runs, joined, are the string without the separator. -/
theorem join_maximalRuns (c : Byte) : ∀ (n : Nat) (S : List Byte), S.length ≤ n →
    (maximalRuns c S).flatten = S.filter (fun x => decide (x ≠ c)) := by
  intro n
  induction n with
  | zero =>
    intro S hS
    have hnil : S = [] := List.eq_nil_of_length_eq_zero (by omega)
    subst hnil
    rfl
  | succ n ih =>
    intro S hS
    rcases first_occurrence c S with hnot | ⟨pre, post, hl, hpre⟩
    · rw [maximalRuns_of_not_mem c S hnot]
      have hf : S.filter (fun x => decide (x ≠ c)) = S := by
        apply List.filter_eq_self.2
        intro x hx
        simp only [ne_eq, decide_not, Bool.not_eq_true', decide_eq_false_iff_not]
        intro hxc
        exact hnot (hxc ▸ hx)
      rw [hf]
      by_cases hS0 : S = []
      · rw [if_pos hS0, hS0]; rfl
      · rw [if_neg hS0]; simp
    · have hlen : post.length ≤ n := by
        have := congrArg List.length hl
        simp at this
        omega
      have hf : pre.filter (fun x => decide (x ≠ c)) = pre := by
        apply List.filter_eq_self.2
        intro x hx
        simp only [ne_eq, decide_not, Bool.not_eq_true', decide_eq_false_iff_not]
        intro hxc
        exact hpre (hxc ▸ hx)
      rw [hl, maximalRuns_append c pre post hpre, List.flatten_append, ih post hlen,
        List.filter_append, hf, List.filter_cons_of_neg (by simp)]
      by_cases hp0 : pre = []
      · rw [if_pos hp0, hp0]; rfl
      · rw [if_neg hp0]; simp

/-- No maximal run is empty or contains the separator. -/
theorem mem_maximalRuns (c : Byte) (S p : List Byte) (hp : p ∈ maximalRuns c S) :
    p ≠ [] ∧ c ∉ p := by
  unfold maximalRuns at hp
  obtain ⟨h1, h2⟩ := List.mem_filter.1 hp
  refine ⟨?_, not_mem_of_mem_splitOn c S.length S (Nat.le_refl _) p h1⟩
  intro hnil
  rw [hnil] at h2
  simp at h2

/-- C20: for every string `S` shorter than `2^32` characters, every separator
`c` and every initial output vector `V`, `SplitString(S, c, V)` with enough
fuel returns, and the vector afterwards is `V` followed, from left to right, by
the maximal non-empty runs of characters of `S` different from `c`: the pieces
of `S` cut at every `c` (pieces that contain no `c` and give back `S` when put
together with one `c` between neighbours), without the empty ones.  No appended
piece is empty or contains `c`, and the appended pieces joined are `S` with
every `c` removed. -/
theorem C20_split_string_maximal_runs (S : List Byte) (c : Byte) (V : List (List Byte))
    (fuel : Nat) (hS : S.length < 2 ^ 32) (hfuel : S.length < fuel) :
    SplitString fuel S c V = some (V ++ maximalRuns c S) ∧
    maximalRuns c S = (S.splitOn c).filter (fun p => !p.isEmpty) ∧
    [c].intercalate (S.splitOn c) = S ∧
    (∀ p ∈ S.splitOn c, c ∉ p) ∧
    (∀ p ∈ maximalRuns c S, p ≠ [] ∧ c ∉ p) ∧
    (maximalRuns c S).flatten = S.filter (fun x => decide (x ≠ c)) := by
  refine ⟨?_, rfl, List.intercalate_splitOn S c,
    not_mem_of_mem_splitOn c S.length S (Nat.le_refl _),
    fun p hp => mem_maximalRuns c S p hp, join_maximalRuns c S.length S (Nat.le_refl _)⟩
  obtain ⟨b1, out1, hloop, hfin⟩ := splitLoop_spec S c hS fuel 0 V (Nat.zero_le _) (by omega)
  rw [SplitString, hloop]
  simp only
  rw [hfin, List.drop_zero]

/-- C20 at a concrete call: leading, repeated and trailing separators. -/
theorem C20_split_string_maximal_runs_witness :
    SplitString 8 [0, 1, 0, 0, 2, 3, 0] 0 [[9]] = some ([[9]] ++ [[1], [2, 3]]) :=
  ((C20_split_string_maximal_runs [0, 1, 0, 0, 2, 3, 0] 0 [[9]] 8 (by decide)
    (by decide)).1).trans (by decide)
